import Mathlib

/-!
Verification of the schema-driven XML data-binding engine of docx-rs.

The repository's visible sources (src/src/document/break.rs,
src/src/formatting/dstrike.rs, src/codegen/tests/codegen.rs) declare record
types bound to XML elements via per-field annotations and test the generated
reader/writer.  The generic engine itself (the code generated by the Xml
derive) is not among the sources, so the Record Reader, Record Writer,
Union Dispatcher and Scalar Coercion below are modelled from the spec
(sections 4.2-4.5 and 6); the schemas, record shapes, string-enum literal
table and the error type are translated from the source files.
-/

namespace DocxXml

/-- XML stream token, translated from the spec's Token Stream contract
(section 6): start tag with attributes, self-closing tag with attributes,
end tag, text run; end-of-input is the end of the token list. -/
inductive Token where
  | start (name : String) (attrs : List (String × String))
  | selfClose (name : String) (attrs : List (String × String))
  | close (name : String)
  | text (content : String)
deriving DecidableEq, Repr

/-- Error type, translated from the Error enum of src/codegen/tests/codegen.rs.
Payloads that are opaque foreign errors in Rust (IOError, XmlError, Utf8Error)
are carried as strings; ParseInt/ParseBool carry the offending text. -/
inductive Error where
  | io (msg : String)
  | xml (msg : String)
  | utf8 (msg : String)
  | parseInt (found : String)
  | parseBool (found : String)
  | unexpectedEof
  | unexpectedTag (expected : String) (found : String)
  | unexpectedEvent (expected : String) (found : String)
  | missingField (name : String) (field : String)
  | unknownValue (expected : String) (found : String)
deriving DecidableEq, Repr

/-- Scalar kinds a field can carry (spec section 3: string, bool,
signed-integer), plus the closed string-enum kind used by the
string-enum literal tables declared in the source (BreakType). -/
inductive ScalarKind where
  | str
  | bool
  | int
  | senum (lits : List String)
deriving DecidableEq, Repr

/-- A scalar runtime value. -/
inductive Scalar where
  | s (v : String)
  | b (v : Bool)
  | i (v : Int)
  | e (lit : String)
deriving DecidableEq, Repr

/-! Decimal rendering and parsing of integers, modelled from the spec
(section 4.5): canonical base-10, minus sign for negatives; parsing fails
on non-digit content. -/

/-- Character for a decimal digit. -/
def digitCh : Nat → Char
  | 0 => '0'
  | 1 => '1'
  | 2 => '2'
  | 3 => '3'
  | 4 => '4'
  | 5 => '5'
  | 6 => '6'
  | 7 => '7'
  | 8 => '8'
  | _ => '9'

/-- Digit value of a character, none if not a decimal digit. -/
def chDigit (c : Char) : Option Nat :=
  if 48 ≤ c.toNat ∧ c.toNat ≤ 57 then some (c.toNat - 48) else none

/-- Big-endian digit characters of a natural number (empty for 0). -/
def natToChars (n : Nat) : List Char :=
  ((Nat.digits 10 n).map digitCh).reverse

/-- Canonical decimal rendering of a natural number. -/
def natToString (n : Nat) : String :=
  if n = 0 then "0" else String.mk (natToChars n)

/-- Canonical decimal rendering of an integer. -/
def intToString (i : Int) : String :=
  if i < 0 then "-" ++ natToString i.natAbs else natToString i.toNat

/-- Accumulating base-10 parse of a digit-character list. -/
def parseNatAcc : List Char → Nat → Option Nat
  | [], acc => some acc
  | c :: cs, acc =>
    match chDigit c with
    | some d => parseNatAcc cs (acc * 10 + d)
    | none => none

/-- Base-10 parse of a string; fails when empty or containing a non-digit. -/
def parseNatS (s : String) : Option Nat :=
  match s.data with
  | [] => none
  | cs => parseNatAcc cs 0

/-- Base-10 parse of an integer with optional leading minus sign. -/
def parseIntS (s : String) : Option Int :=
  match s.data with
  | [] => none
  | c :: cs =>
    if c = '-' then
      match cs with
      | [] => none
      | _ => (parseNatAcc cs 0).map (fun n => -(n : Int))
    else (parseNatAcc (c :: cs) 0).map (fun n => (n : Int))

theorem chDigit_digitCh (d : Nat) (hd : d < 10) : chDigit (digitCh d) = some d := by
  interval_cases d <;> decide

theorem parseNatAcc_digits (ds : List Nat) (h : ∀ d ∈ ds, d < 10) :
    ∀ acc, parseNatAcc (ds.map digitCh) acc = some (ds.foldl (fun a d => a * 10 + d) acc) := by
  induction ds with
  | nil => intro acc; rfl
  | cons d ds ih =>
    intro acc
    have hd : d < 10 := h d (List.mem_cons_self d ds)
    simp only [List.map_cons, parseNatAcc, chDigit_digitCh d hd, List.foldl_cons]
    exact ih (fun x hx => h x (List.mem_cons_of_mem d hx)) (acc * 10 + d)

theorem foldr_ofDigits (l : List Nat) :
    l.foldr (fun d a => a * 10 + d) 0 = Nat.ofDigits 10 l := by
  induction l with
  | nil => rfl
  | cons d l ih => simp [List.foldr_cons, Nat.ofDigits_cons, ih]; ring

theorem parseNatAcc_natToChars (n : Nat) : parseNatAcc (natToChars n) 0 = some n := by
  have hlt : ∀ d ∈ (Nat.digits 10 n).reverse, d < 10 := by
    intro d hd
    exact Nat.digits_lt_base (by norm_num) (List.mem_reverse.mp hd)
  have h1 : natToChars n = ((Nat.digits 10 n).reverse).map digitCh := by
    simp [natToChars, List.map_reverse]
  rw [h1, parseNatAcc_digits _ hlt 0]
  congr 1
  rw [List.foldl_reverse, foldr_ofDigits, Nat.ofDigits_digits]

theorem natToChars_ne_nil (n : Nat) (h0 : n ≠ 0) : natToChars n ≠ [] := by
  intro h
  have : Nat.digits 10 n = [] := by
    have := congrArg List.length h
    simpa [natToChars] using this
  exact h0 (by simpa using (Nat.digits_eq_nil_iff_eq_zero.mp this))

theorem natToString_data (n : Nat) (h0 : n ≠ 0) : (natToString n).data = natToChars n := by
  simp [natToString, h0]

theorem parseNatAcc_data (n : Nat) : parseNatAcc (natToString n).data 0 = some n := by
  by_cases h0 : n = 0
  · subst h0; decide
  · rw [natToString_data n h0]
    exact parseNatAcc_natToChars n

theorem natToString_data_ne_nil (n : Nat) : (natToString n).data ≠ [] := by
  by_cases h0 : n = 0
  · subst h0; decide
  · rw [natToString_data n h0]
    exact natToChars_ne_nil n h0

theorem parseNatS_natToString (n : Nat) : parseNatS (natToString n) = some n := by
  unfold parseNatS
  cases he : (natToString n).data with
  | nil => exact absurd he (natToString_data_ne_nil n)
  | cons c cs =>
    show parseNatAcc (c :: cs) 0 = some n
    rw [← he]
    exact parseNatAcc_data n

theorem digitCh_ne_dash (d : Nat) : digitCh d ≠ '-' := by
  unfold digitCh
  split <;> decide

theorem natToString_head_digit (n : Nat) :
    ∃ d cs, d < 10 ∧ (natToString n).data = digitCh d :: cs := by
  by_cases h0 : n = 0
  · exact ⟨0, [], by omega, by subst h0; rfl⟩
  · rw [natToString_data n h0]
    cases hc : natToChars n with
    | nil => exact absurd hc (natToChars_ne_nil n h0)
    | cons c cs =>
      have hmem : c ∈ natToChars n := by rw [hc]; exact List.mem_cons_self c cs
      have hmm : c ∈ ((Nat.digits 10 n).map digitCh).reverse := hmem
      rw [List.mem_reverse, List.mem_map] at hmm
      obtain ⟨d, hdm, rfl⟩ := hmm
      exact ⟨d, cs, Nat.digits_lt_base (by norm_num) hdm, rfl⟩

theorem parseIntS_intToString (i : Int) : parseIntS (intToString i) = some i := by
  by_cases hneg : i < 0
  · have hrn : intToString i = "-" ++ natToString i.natAbs := by simp [intToString, hneg]
    rw [hrn]
    have hdata : ("-" ++ natToString i.natAbs).data = '-' :: (natToString i.natAbs).data := by
      rw [String.data_append]
      rfl
    unfold parseIntS
    rw [hdata]
    show (if ('-' : Char) = '-' then _ else _) = some i
    rw [if_pos rfl]
    cases he : (natToString i.natAbs).data with
    | nil => exact absurd he (natToString_data_ne_nil i.natAbs)
    | cons x xs =>
      show (parseNatAcc (x :: xs) 0).map (fun n => -(n : Int)) = some i
      rw [← he, parseNatAcc_data]
      show some (-(i.natAbs : Int)) = some i
      congr 1
      omega
  · have hrn : intToString i = natToString i.toNat := by simp [intToString, hneg]
    rw [hrn]
    obtain ⟨d, cs, _, hd⟩ := natToString_head_digit i.toNat
    unfold parseIntS
    rw [hd]
    show (if digitCh d = '-' then _ else _) = some i
    rw [if_neg (digitCh_ne_dash d), ← hd, parseNatAcc_data]
    show some ((i.toNat : Nat) : Int) = some i
    congr 1
    omega

/-! The Schema Descriptor data model, modelled from the spec (section 3):
per record type a tag name, a leaf flag and an ordered list of field
descriptors.  Child/Children fields carry the nested record's schema. -/

mutual

inductive Schema where
  | mk (tag : String) (leaf : Bool) (fields : List Field)

inductive Field where
  | attr (name : String) (kind : ScalarKind) (required : Bool)
  | text
  | flattenText (wtag : String)
  | child (sub : Schema)
  | children (sub : Schema)

end

def Schema.tag : Schema → String
  | .mk t _ _ => t

def Schema.leafFlag : Schema → Bool
  | .mk _ l _ => l

def Schema.fields : Schema → List Field
  | .mk _ _ fs => fs

/-! A record value: its field values in schema field order (spec section 3:
a record holds exactly the fields the descriptor declares). -/

mutual

inductive RecVal where
  | mk (vals : List FieldVal)

inductive FieldVal where
  | reqScalar (v : Scalar)
  | optScalar (v : Option Scalar)
  | childF (v : Option RecVal)
  | childrenF (vs : List RecVal)

end

def RecVal.vals : RecVal → List FieldVal
  | .mk vs => vs

/-! Scalar Coercion, modelled from the spec (section 4.5), plus the closed
string-enum coercion declared by the source's string-enum macro invocation
(src/src/document/break.rs): a value matching none of the declared literals
is an UnknownValue error carrying the expected set and the found text. -/

/-- Stringification of a scalar (spec section 4.5 from_scalar). -/
def renderScalar : Scalar → String
  | .s v => v
  | .b v => if v then "true" else "false"
  | .i v => intToString v
  | .e lit => lit

/-- Does a scalar value fit a scalar kind? -/
def scalarTy : ScalarKind → Scalar → Bool
  | .str, .s _ => true
  | .bool, .b _ => true
  | .int, .i _ => true
  | .senum lits, .e lit => lits.contains lit
  | _, _ => false

/-- Text-to-scalar coercion (spec section 4.5 to_scalar). -/
def toScalar (k : ScalarKind) (t : String) : Except Error Scalar :=
  match k with
  | ScalarKind.str => .ok (Scalar.s t)
  | ScalarKind.bool =>
    if t = "true" then .ok (Scalar.b true)
    else if t = "false" then .ok (Scalar.b false)
    else .error (Error.parseBool t)
  | ScalarKind.int =>
    match parseIntS t with
    | some i => .ok (Scalar.i i)
    | none => .error (Error.parseInt t)
  | ScalarKind.senum lits =>
    if lits.contains t then .ok (Scalar.e t)
    else .error (Error.unknownValue (String.intercalate " | " lits) t)

theorem toScalar_render (k : ScalarKind) (sc : Scalar) (h : scalarTy k sc = true) :
    toScalar k (renderScalar sc) = .ok sc := by
  cases k with
  | str => cases sc <;> simp_all [scalarTy, toScalar, renderScalar]
  | bool =>
    cases sc with
    | b v => cases v <;> simp [toScalar, renderScalar]
    | _ => simp_all [scalarTy]
  | int =>
    cases sc with
    | i v => simp [toScalar, renderScalar, parseIntS_intToString]
    | _ => simp_all [scalarTy]
  | senum lits =>
    cases sc with
    | e lit =>
      have hc : lits.contains lit = true := by simpa [scalarTy] using h
      have hm : lit ∈ lits := by simpa using hc
      simp [toScalar, renderScalar, hc, hm]
    | _ => simp_all [scalarTy]

/-! The Record Reader, modelled from the spec (section 4.2). -/

/-- Attribute lookup by name in a start tag's attribute list. -/
def lookupAttr : List (String × String) → String → Option String
  | [], _ => none
  | p :: ps, n => if p.1 = n then some p.2 else lookupAttr ps n

/-- Default value of a non-attribute field before the body is read
(spec section 4.2 step 3: empty string / empty sequence / absent). -/
def initField : Field → FieldVal
  | .attr _ _ req => if req then .reqScalar (.s "") else .optScalar none
  | .text => .reqScalar (.s "")
  | .flattenText _ => .optScalar none
  | .child _ => .childF none
  | .children _ => .childrenF []

/-- Step 2 of the reader: resolve every Attribute field against the start
tag's attribute list (missing required attribute is a MissingField error
naming the record's tag and the attribute), and give every other field its
default accumulator. -/
def initAcc (tg : String) : List Field → List (String × String) → Except Error (List FieldVal)
  | [], _ => .ok []
  | Field.attr an k req :: fs, attrs =>
    match lookupAttr attrs an with
    | some t =>
      match toScalar k t with
      | .ok sc =>
        match initAcc tg fs attrs with
        | .ok rest => .ok ((if req then FieldVal.reqScalar sc else FieldVal.optScalar (some sc)) :: rest)
        | .error e => .error e
      | .error e => .error e
    | none =>
      if req then .error (.missingField tg an)
      else
        match initAcc tg fs attrs with
        | .ok rest => .ok (FieldVal.optScalar none :: rest)
        | .error e => .error e
  | f :: fs, attrs =>
    match initAcc tg fs attrs with
    | .ok rest => .ok (initField f :: rest)
    | .error e => .error e

/-- Accumulate a text run into the declared Text field (spec section 4.2
step 4: concatenating run fragments); none when no Text field is declared. -/
def appendText : List Field → List FieldVal → String → Option (List FieldVal)
  | Field.text :: _, FieldVal.reqScalar (Scalar.s cur) :: vs, t =>
    some (FieldVal.reqScalar (Scalar.s (cur ++ t)) :: vs)
  | Field.text :: _, _, _ => none
  | _ :: fs, v :: vs, t => (appendText fs vs t).map (fun acc => v :: acc)
  | _, _, _ => none

/-- Skip the remainder of an element whose start tag was already consumed:
consume tokens, tracking nesting depth, until the matching end tag
(spec section 4.2: skip an unknown subtree of arbitrary depth). -/
def skipToClose (fuel : Nat) (depth : Nat) (toks : List Token) : Except Error (List Token) :=
  match fuel with
  | 0 => .error .unexpectedEof
  | fuel + 1 =>
    match toks with
    | [] => .error .unexpectedEof
    | Token.close _ :: rest =>
      match depth with
      | 0 => .ok rest
      | d + 1 => skipToClose fuel d rest
    | Token.start _ _ :: rest => skipToClose fuel (depth + 1) rest
    | _ :: rest => skipToClose fuel depth rest

/-- Read the inner text run of a flattened-text wrapper whose start tag was
already consumed, up to the wrapper's end tag. -/
def readFlatten (fuel : Nat) (w : String) (acc : String) (toks : List Token) :
    Except Error (String × List Token) :=
  match fuel with
  | 0 => .error .unexpectedEof
  | fuel + 1 =>
    match toks with
    | [] => .error .unexpectedEof
    | Token.text t :: rest => readFlatten fuel w (acc ++ t) rest
    | Token.close n :: rest =>
      if n = w then .ok (acc, rest) else .error (.unexpectedEvent w n)
    | _ => .error (.unexpectedEvent "text" "element")

mutual

/-- Read one record (spec section 4.2): match the start or self-closing tag
against the schema tag, resolve attributes, then stop (self-closing or leaf)
or read the body until the matching end tag. -/
def readRecord (fuel : Nat) (s : Schema) (toks : List Token) :
    Except Error (RecVal × List Token) :=
  match fuel with
  | 0 => .error .unexpectedEof
  | fuel + 1 =>
    match toks with
    | [] => .error .unexpectedEof
    | Token.selfClose n attrs :: rest =>
      if n = s.tag then
        match initAcc s.tag s.fields attrs with
        | .ok ini => .ok (RecVal.mk ini, rest)
        | .error e => .error e
      else .error (.unexpectedTag s.tag n)
    | Token.start n attrs :: rest =>
      if n = s.tag then
        match initAcc s.tag s.fields attrs with
        | .ok ini =>
          if s.leafFlag then
            match skipToClose fuel 0 rest with
            | .ok rest2 => .ok (RecVal.mk ini, rest2)
            | .error e => .error e
          else
            match readBody fuel s ini rest with
            | .ok (vals, rest2) => .ok (RecVal.mk vals, rest2)
            | .error e => .error e
        | .error e => .error e
      else .error (.unexpectedTag s.tag n)
    | Token.close n :: _ => .error (.unexpectedEvent "start tag" n)
    | Token.text _ :: _ => .error (.unexpectedEvent "start tag" "text")
termination_by (fuel, 0)

/-- Read the body of an element (spec section 4.2 step 4): loop over sibling
tokens until the matching end tag, accumulating text, reading declared
children, and skipping unknown elements. -/
def readBody (fuel : Nat) (s : Schema) (acc : List FieldVal) (toks : List Token) :
    Except Error (List FieldVal × List Token) :=
  match fuel with
  | 0 => .error .unexpectedEof
  | fuel + 1 =>
    match toks with
    | [] => .error .unexpectedEof
    | Token.close n :: rest =>
      if n = s.tag then .ok (acc, rest)
      else .error (.unexpectedEvent s.tag n)
    | Token.text t :: rest =>
      match appendText s.fields acc t with
      | some acc2 => readBody fuel s acc2 rest
      | none => .error (.unexpectedEvent "element" "text")
    | Token.start n attrs :: rest =>
      match readElemField fuel s.fields acc n (Token.start n attrs) rest with
      | .ok (some (acc2, rest2)) => readBody fuel s acc2 rest2
      | .ok none =>
        match skipToClose fuel 0 rest with
        | .ok rest2 => readBody fuel s acc rest2
        | .error e => .error e
      | .error e => .error e
    | Token.selfClose n attrs :: rest =>
      match readElemField fuel s.fields acc n (Token.selfClose n attrs) rest with
      | .ok (some (acc2, rest2)) => readBody fuel s acc2 rest2
      | .ok none => readBody fuel s acc rest
      | .error e => .error e
termination_by (fuel, 0)

/-- Dispatch a start or self-closing body token against the declared fields
in order: the first Child, Children or FlattenText field whose tag equals
the token's name handles it (a second occurrence of a non-repeating single
Child is an UnexpectedEvent error; Children occurrences append in order);
none when no declared field matches, so the caller skips the element. -/
def readElemField (fuel : Nat) (fs : List Field) (acc : List FieldVal) (n : String)
    (tok : Token) (rest : List Token) :
    Except Error (Option (List FieldVal × List Token)) :=
  match fs, acc with
  | Field.child sub :: fs2, v :: vs =>
    if sub.tag = n then
      match v with
      | FieldVal.childF none =>
        match readRecord fuel sub (tok :: rest) with
        | .ok (r, rest2) => .ok (some (FieldVal.childF (some r) :: vs, rest2))
        | .error e => .error e
      | _ => .error (.unexpectedEvent "single child" n)
    else
      match readElemField fuel fs2 vs n tok rest with
      | .ok (some (acc2, rest2)) => .ok (some (v :: acc2, rest2))
      | other => other
  | Field.children sub :: fs2, v :: vs =>
    if sub.tag = n then
      match v with
      | FieldVal.childrenF rs =>
        match readRecord fuel sub (tok :: rest) with
        | .ok (r, rest2) => .ok (some (FieldVal.childrenF (rs ++ [r]) :: vs, rest2))
        | .error e => .error e
      | _ => .error (.unexpectedEvent "children" n)
    else
      match readElemField fuel fs2 vs n tok rest with
      | .ok (some (acc2, rest2)) => .ok (some (v :: acc2, rest2))
      | other => other
  | Field.flattenText w :: fs2, v :: vs =>
    if w = n then
      match tok with
      | Token.selfClose _ _ => .ok (some (FieldVal.optScalar (some (Scalar.s "")) :: vs, rest))
      | _ =>
        match readFlatten fuel n "" rest with
        | .ok (t, rest2) => .ok (some (FieldVal.optScalar (some (Scalar.s t)) :: vs, rest2))
        | .error e => .error e
    else
      match readElemField fuel fs2 vs n tok rest with
      | .ok (some (acc2, rest2)) => .ok (some (v :: acc2, rest2))
      | other => other
  | _ :: fs2, v :: vs =>
    match readElemField fuel fs2 vs n tok rest with
    | .ok (some (acc2, rest2)) => .ok (some (v :: acc2, rest2))
    | other => other
  | _, _ => .ok none
termination_by (fuel, fs.length)

end

/-! The Record Writer, modelled from the spec (section 4.3): start tag with
attributes in declaration order, body items in declaration order, self-close
when there is no body content. -/

/-- Attribute pairs of a record, in field-declaration order; absent optional
attributes are omitted. -/
def attrsOf : List Field → List FieldVal → List (String × String)
  | Field.attr an _ _ :: fs, FieldVal.reqScalar sc :: vs => (an, renderScalar sc) :: attrsOf fs vs
  | Field.attr an _ _ :: fs, FieldVal.optScalar (some sc) :: vs => (an, renderScalar sc) :: attrsOf fs vs
  | _ :: fs, _ :: vs => attrsOf fs vs
  | _, _ => []

mutual

def writeRecord (s : Schema) (v : RecVal) : List Token :=
  match v with
  | RecVal.mk vals =>
    if (writeBody s.fields vals).isEmpty then [Token.selfClose s.tag (attrsOf s.fields vals)]
    else Token.start s.tag (attrsOf s.fields vals) :: (writeBody s.fields vals ++ [Token.close s.tag])
termination_by sizeOf v

def writeBody (fs : List Field) (vs : List FieldVal) : List Token :=
  match fs, vs with
  | f :: fs2, v :: vs2 => writeField f v ++ writeBody fs2 vs2
  | _, _ => []
termination_by sizeOf vs

def writeField (f : Field) (v : FieldVal) : List Token :=
  match f, v with
  | Field.text, FieldVal.reqScalar sc => [Token.text (renderScalar sc)]
  | Field.flattenText w, FieldVal.optScalar (some sc) =>
    [Token.start w [], Token.text (renderScalar sc), Token.close w]
  | Field.child sub, FieldVal.childF (some r) => writeRecord sub r
  | Field.children sub, FieldVal.childrenF rs => writeChildren sub rs
  | _, _ => []
termination_by sizeOf v

def writeChildren (sub : Schema) (rs : List RecVal) : List Token :=
  match rs with
  | [] => []
  | r :: rs2 => writeRecord sub r ++ writeChildren sub rs2
termination_by sizeOf rs

end

/-! The Union Dispatcher, modelled from the spec (section 4.4): peek the
next start/self-closing tag name, select the variant whose schema tag
equals it, delegate to that variant's Record Reader; no match is an
UnexpectedTag error carrying the expected set and the found tag. -/

/-- First variant (index and schema) whose tag equals the peeked name. -/
def findVariant (vs : List Schema) (n : String) : Option (Nat × Schema) :=
  match vs with
  | [] => none
  | s :: vs2 =>
    if s.tag = n then some (0, s)
    else (findVariant vs2 n).map (fun p => (p.1 + 1, p.2))

/-- Rendering of a union's expected tag set for the UnexpectedTag error. -/
def unionExpected (vs : List Schema) : String :=
  String.intercalate " | " (vs.map Schema.tag)

def readUnion (fuel : Nat) (vs : List Schema) (toks : List Token) :
    Except Error ((Nat × RecVal) × List Token) :=
  match toks with
  | Token.start n _ :: _ =>
    match findVariant vs n with
    | some (i, s) =>
      match readRecord fuel s toks with
      | .ok (r, rest) => .ok ((i, r), rest)
      | .error e => .error e
    | none => .error (.unexpectedTag (unionExpected vs) n)
  | Token.selfClose n _ :: _ =>
    match findVariant vs n with
    | some (i, s) =>
      match readRecord fuel s toks with
      | .ok (r, rest) => .ok ((i, r), rest)
      | .error e => .error e
    | none => .error (.unexpectedTag (unionExpected vs) n)
  | [] => .error .unexpectedEof
  | Token.close n :: _ => .error (.unexpectedEvent "start tag" n)
  | Token.text _ :: _ => .error (.unexpectedEvent "start tag" "text")

/-- Union write (spec section 4.4): delegate to the variant's writer. -/
def writeUnion (vs : List Schema) (i : Nat) (r : RecVal) : List Token :=
  match vs[i]? with
  | some s => writeRecord s r
  | none => []

/-! Serialization of a token stream to XML text (spec section 6 sink
contract): attribute values and text escaped for the XML special
characters. -/

def escChar (c : Char) : String :=
  if c = '&' then "&amp;"
  else if c = '<' then "&lt;"
  else if c = '>' then "&gt;"
  else if c = '\"' then "&quot;"
  else String.singleton c

def escStr (v : String) : String :=
  String.join (v.data.map escChar)

def renderAttrsS (attrs : List (String × String)) : String :=
  attrs.foldl (fun acc p => acc ++ " " ++ p.1 ++ "=\"" ++ escStr p.2 ++ "\"") ""

def renderToken : Token → String
  | .start n a => "<" ++ n ++ renderAttrsS a ++ ">"
  | .selfClose n a => "<" ++ n ++ renderAttrsS a ++ "/>"
  | .close n => "</" ++ n ++ ">"
  | .text t => escStr t

def serialize (ts : List Token) : String :=
  ts.foldl (fun acc t => acc ++ renderToken t) ""

/-! The concrete schemas and record constructors of the repository,
translated from the xml attribute annotations in
src/codegen/tests/codegen.rs, src/src/formatting/dstrike.rs and
src/src/document/break.rs. -/

def tag1Schema : Schema :=
  Schema.mk "tag1" false [Field.attr "att1" ScalarKind.str false, Field.text]

def tag2Schema : Schema :=
  Schema.mk "tag2" true [Field.attr "att1" ScalarKind.str true, Field.attr "att2" ScalarKind.str true]

def tag3Schema : Schema :=
  Schema.mk "tag3" false
    [Field.attr "att1" ScalarKind.str true,
     Field.children tag1Schema,
     Field.child tag2Schema,
     Field.flattenText "text"]

/-- The Tag union of the codegen test: variants tag1, tag2, tag3. -/
def tagUnion : List Schema := [tag1Schema, tag2Schema, tag3Schema]

def dstrikeSchema : Schema :=
  Schema.mk "w:dstrike" false [Field.attr "w:val" ScalarKind.bool false]

def positionSchema : Schema :=
  Schema.mk "w:position" false [Field.attr "w:val" ScalarKind.int false]

/-- Literals of the BreakType string enum, from src/src/document/break.rs. -/
def breakLits : List String := ["column", "page", "textWrapping"]

def breakSchema : Schema :=
  Schema.mk "w:br" false [Field.attr "w:type" (ScalarKind.senum breakLits) false]

/-- BreakType, translated from src/src/document/break.rs. -/
inductive BreakType where
  | column
  | page
  | textWrapping
deriving DecidableEq, Repr

/-- The literal each BreakType variant maps to, from the string-enum table. -/
def BreakType.lit : BreakType → String
  | .column => "column"
  | .page => "page"
  | .textWrapping => "textWrapping"

def tag1Rec (att1 : Option String) (content : String) : RecVal :=
  RecVal.mk [FieldVal.optScalar (att1.map Scalar.s), FieldVal.reqScalar (Scalar.s content)]

def tag2Rec (att1 att2 : String) : RecVal :=
  RecVal.mk [FieldVal.reqScalar (Scalar.s att1), FieldVal.reqScalar (Scalar.s att2)]

def tag3Rec (att1 : String) (tag1 : List (Option String × String))
    (tag2 : Option (String × String)) (txt : Option String) : RecVal :=
  RecVal.mk
    [FieldVal.reqScalar (Scalar.s att1),
     FieldVal.childrenF (tag1.map (fun p => tag1Rec p.1 p.2)),
     FieldVal.childF (tag2.map (fun p => tag2Rec p.1 p.2)),
     FieldVal.optScalar (txt.map Scalar.s)]

def dstrikeRec (value : Option Bool) : RecVal :=
  RecVal.mk [FieldVal.optScalar (value.map Scalar.b)]

def positionRec (value : Option Int) : RecVal :=
  RecVal.mk [FieldVal.optScalar (value.map Scalar.i)]

def breakRec (ty : Option BreakType) : RecVal :=
  RecVal.mk [FieldVal.optScalar (ty.map (fun t => Scalar.e t.lit))]

/-! Infrastructure for reasoning about the fuelled reader: a computation
"runs to" a result when every sufficiently large fuel produces it, and a
token block "steps" the body accumulator when prepending it preserves any
continuation's result. -/

theorem empty_append_str (s : String) : "" ++ s = s := by
  cases s
  rfl

/-- The body reader on a fixed accumulator and stream yields this result at
every sufficiently large fuel. -/
def BodyRuns (s : Schema) (acc : List FieldVal) (toks : List Token)
    (res : Except Error (List FieldVal × List Token)) : Prop :=
  ∃ N, ∀ fuel, N ≤ fuel → readBody fuel s acc toks = res

/-- Processing the block ts turns accumulator acc into out: any result the
body reader produces from out on the remaining stream, it also produces
from acc on ts followed by that stream. -/
def BodySteps (s : Schema) (acc : List FieldVal) (ts : List Token) (out : List FieldVal) : Prop :=
  ∀ rest res, BodyRuns s out rest res → BodyRuns s acc (ts ++ rest) res

/-- The record reader on a fixed stream yields this result at every
sufficiently large fuel. -/
def RecRuns (s : Schema) (toks : List Token) (res : Except Error (RecVal × List Token)) : Prop :=
  ∃ N, ∀ fuel, N ≤ fuel → readRecord fuel s toks = res

/-- Reading the token block ts as a record of schema s yields v and consumes
exactly ts, whatever follows. -/
def ReadsRec (s : Schema) (ts : List Token) (v : RecVal) : Prop :=
  ∀ rest, RecRuns s (ts ++ rest) (.ok (v, rest))

theorem bodySteps_nil (s : Schema) (acc : List FieldVal) : BodySteps s acc [] acc := by
  intro rest res h
  simpa using h

theorem bodySteps_append {s : Schema} {acc mid out : List FieldVal} {t1 t2 : List Token}
    (h1 : BodySteps s acc t1 mid) (h2 : BodySteps s mid t2 out) :
    BodySteps s acc (t1 ++ t2) out := by
  intro rest res h
  have h3 := h1 (t2 ++ rest) res (h2 rest res h)
  simpa [List.append_assoc] using h3

theorem bodyRuns_close (s : Schema) (out : List FieldVal) (rest : List Token) :
    BodyRuns s out (Token.close s.tag :: rest) (.ok (out, rest)) := by
  refine ⟨1, fun fuel hf => ?_⟩
  match fuel, hf with
  | fuel + 1, _ => simp [readBody]

/-- A completed body-step chain, closed off by the element's end tag. -/
theorem bodySteps_runs {s : Schema} {acc out : List FieldVal} {ts : List Token}
    (h : BodySteps s acc ts out) (rest : List Token) :
    BodyRuns s acc (ts ++ (Token.close s.tag :: rest)) (.ok (out, rest)) :=
  h _ _ (bodyRuns_close s out rest)

theorem recRuns_selfClose {s : Schema} {attrs : List (String × String)} {ini : List FieldVal}
    (h : initAcc s.tag s.fields attrs = .ok ini) (rest : List Token) :
    RecRuns s (Token.selfClose s.tag attrs :: rest) (.ok (RecVal.mk ini, rest)) := by
  refine ⟨1, fun fuel hf => ?_⟩
  match fuel, hf with
  | fuel + 1, _ => simp [readRecord, h]

theorem recRuns_selfClose_err {s : Schema} {attrs : List (String × String)} {e : Error}
    (h : initAcc s.tag s.fields attrs = .error e) (rest : List Token) :
    RecRuns s (Token.selfClose s.tag attrs :: rest) (.error e) := by
  refine ⟨1, fun fuel hf => ?_⟩
  match fuel, hf with
  | fuel + 1, _ => simp [readRecord, h]

theorem recRuns_start_ok {s : Schema} (hlf : s.leafFlag = false)
    {attrs : List (String × String)} {ini vals : List FieldVal} {btoks rest2 : List Token}
    (hini : initAcc s.tag s.fields attrs = .ok ini)
    (hb : BodyRuns s ini btoks (.ok (vals, rest2))) :
    RecRuns s (Token.start s.tag attrs :: btoks) (.ok (RecVal.mk vals, rest2)) := by
  obtain ⟨N, h⟩ := hb
  refine ⟨N + 1, fun fuel hf => ?_⟩
  match fuel, hf with
  | fuel + 1, hf =>
    have hN : N ≤ fuel := by omega
    simp [readRecord, hini, hlf, h fuel hN]

theorem recRuns_start_err {s : Schema} (hlf : s.leafFlag = false)
    {attrs : List (String × String)} {ini : List FieldVal} {btoks : List Token} {e : Error}
    (hini : initAcc s.tag s.fields attrs = .ok ini)
    (hb : BodyRuns s ini btoks (.error e)) :
    RecRuns s (Token.start s.tag attrs :: btoks) (.error e) := by
  obtain ⟨N, h⟩ := hb
  refine ⟨N + 1, fun fuel hf => ?_⟩
  match fuel, hf with
  | fuel + 1, hf =>
    have hN : N ≤ fuel := by omega
    simp [readRecord, hini, hlf, h fuel hN]

/-! Writer shapes and attribute resolution for the concrete record types. -/

theorem write_tag2 (x y : String) :
    writeRecord tag2Schema (tag2Rec x y) = [Token.selfClose "tag2" [("att1", x), ("att2", y)]] := by
  simp [writeRecord, tag2Rec, tag2Schema, writeBody, writeField, attrsOf, Schema.tag,
    Schema.fields, renderScalar]

theorem init_tag2 (x y : String) :
    initAcc "tag2" tag2Schema.fields [("att1", x), ("att2", y)] =
      .ok [FieldVal.reqScalar (Scalar.s x), FieldVal.reqScalar (Scalar.s y)] := by
  simp [tag2Schema, Schema.fields, initAcc, lookupAttr, toScalar]

theorem reads_tag2 (x y : String) :
    ReadsRec tag2Schema (writeRecord tag2Schema (tag2Rec x y)) (tag2Rec x y) := by
  intro rest
  rw [write_tag2]
  exact recRuns_selfClose (s := tag2Schema) (init_tag2 x y) rest

theorem bodySteps_text {s : Schema} {acc acc2 : List FieldVal} {t : String}
    (h : appendText s.fields acc t = some acc2) : BodySteps s acc [Token.text t] acc2 := by
  intro rest res hr
  obtain ⟨N, hr⟩ := hr
  refine ⟨N + 1, fun fuel hf => ?_⟩
  match fuel, hf with
  | fuel + 1, hf =>
    have hN : N ≤ fuel := by omega
    simp [readBody, h, hr fuel hN]

theorem write_tag1_none (c : String) :
    writeRecord tag1Schema (tag1Rec none c) =
      [Token.start "tag1" [], Token.text c, Token.close "tag1"] := by
  simp [writeRecord, tag1Rec, tag1Schema, writeBody, writeField, attrsOf, Schema.tag,
    Schema.fields, renderScalar]

theorem write_tag1_some (a c : String) :
    writeRecord tag1Schema (tag1Rec (some a) c) =
      [Token.start "tag1" [("att1", a)], Token.text c, Token.close "tag1"] := by
  simp [writeRecord, tag1Rec, tag1Schema, writeBody, writeField, attrsOf, Schema.tag,
    Schema.fields, renderScalar]

theorem init_tag1_none :
    initAcc "tag1" tag1Schema.fields [] =
      .ok [FieldVal.optScalar none, FieldVal.reqScalar (Scalar.s "")] := rfl

theorem init_tag1_some (a : String) :
    initAcc "tag1" tag1Schema.fields [("att1", a)] =
      .ok [FieldVal.optScalar (some (Scalar.s a)), FieldVal.reqScalar (Scalar.s "")] := rfl

theorem reads_tag1 (oa : Option String) (c : String) :
    ReadsRec tag1Schema (writeRecord tag1Schema (tag1Rec oa c)) (tag1Rec oa c) := by
  intro rest
  have hstep : ∀ v : FieldVal, BodySteps tag1Schema [v, FieldVal.reqScalar (Scalar.s "")]
      [Token.text c] [v, FieldVal.reqScalar (Scalar.s c)] := by
    intro v
    have happ : appendText tag1Schema.fields
        [v, FieldVal.reqScalar (Scalar.s "")] c =
        some [v, FieldVal.reqScalar (Scalar.s ("" ++ c))] := by
      simp [tag1Schema, Schema.fields, appendText]
    rw [empty_append_str] at happ
    exact bodySteps_text happ
  cases oa with
  | none =>
    rw [write_tag1_none]
    exact recRuns_start_ok (s := tag1Schema) rfl init_tag1_none
      (bodySteps_runs (hstep (FieldVal.optScalar none)) rest)
  | some a =>
    rw [write_tag1_some]
    exact recRuns_start_ok (s := tag1Schema) rfl (init_tag1_some a)
      (bodySteps_runs (hstep (FieldVal.optScalar (some (Scalar.s a)))) rest)

theorem write_dstrike_none :
    writeRecord dstrikeSchema (dstrikeRec none) = [Token.selfClose "w:dstrike" []] := by
  simp [writeRecord, dstrikeRec, dstrikeSchema, writeBody, writeField, attrsOf, Schema.tag,
    Schema.fields]

theorem write_dstrike_some (b : Bool) :
    writeRecord dstrikeSchema (dstrikeRec (some b)) =
      [Token.selfClose "w:dstrike" [("w:val", if b then "true" else "false")]] := by
  simp [writeRecord, dstrikeRec, dstrikeSchema, writeBody, writeField, attrsOf, Schema.tag,
    Schema.fields, renderScalar]

theorem init_dstrike_none :
    initAcc "w:dstrike" dstrikeSchema.fields [] = .ok [FieldVal.optScalar none] := rfl

theorem init_dstrike_some (b : Bool) :
    initAcc "w:dstrike" dstrikeSchema.fields [("w:val", if b then "true" else "false")] =
      .ok [FieldVal.optScalar (some (Scalar.b b))] := by
  cases b <;> rfl

theorem reads_dstrike (ob : Option Bool) :
    ReadsRec dstrikeSchema (writeRecord dstrikeSchema (dstrikeRec ob)) (dstrikeRec ob) := by
  intro rest
  cases ob with
  | none =>
    rw [write_dstrike_none]
    exact recRuns_selfClose (s := dstrikeSchema) init_dstrike_none rest
  | some b =>
    rw [write_dstrike_some]
    exact recRuns_selfClose (s := dstrikeSchema) (init_dstrike_some b) rest

theorem write_position_none :
    writeRecord positionSchema (positionRec none) = [Token.selfClose "w:position" []] := by
  simp [writeRecord, positionRec, positionSchema, writeBody, writeField, attrsOf, Schema.tag,
    Schema.fields]

theorem write_position_some (i : Int) :
    writeRecord positionSchema (positionRec (some i)) =
      [Token.selfClose "w:position" [("w:val", intToString i)]] := by
  simp [writeRecord, positionRec, positionSchema, writeBody, writeField, attrsOf, Schema.tag,
    Schema.fields, renderScalar]

theorem init_position_none :
    initAcc "w:position" positionSchema.fields [] = .ok [FieldVal.optScalar none] := rfl

theorem init_position_some (i : Int) :
    initAcc "w:position" positionSchema.fields [("w:val", intToString i)] =
      .ok [FieldVal.optScalar (some (Scalar.i i))] := by
  simp [positionSchema, Schema.fields, initAcc, lookupAttr, toScalar, parseIntS_intToString]

theorem reads_position (oi : Option Int) :
    ReadsRec positionSchema (writeRecord positionSchema (positionRec oi)) (positionRec oi) := by
  intro rest
  cases oi with
  | none =>
    rw [write_position_none]
    exact recRuns_selfClose (s := positionSchema) init_position_none rest
  | some i =>
    rw [write_position_some]
    exact recRuns_selfClose (s := positionSchema) (init_position_some i) rest

theorem write_break_none :
    writeRecord breakSchema (breakRec none) = [Token.selfClose "w:br" []] := by
  simp [writeRecord, breakRec, breakSchema, writeBody, writeField, attrsOf, Schema.tag,
    Schema.fields]

theorem write_break_some (t : BreakType) :
    writeRecord breakSchema (breakRec (some t)) =
      [Token.selfClose "w:br" [("w:type", t.lit)]] := by
  simp [writeRecord, breakRec, breakSchema, writeBody, writeField, attrsOf, Schema.tag,
    Schema.fields, renderScalar]

theorem init_break_none :
    initAcc "w:br" breakSchema.fields [] = .ok [FieldVal.optScalar none] := rfl

theorem init_break_some (t : BreakType) :
    initAcc "w:br" breakSchema.fields [("w:type", t.lit)] =
      .ok [FieldVal.optScalar (some (Scalar.e t.lit))] := by
  cases t <;> rfl

/-! Tag3: the record with a repeated Children field, an optional single
Child and an optional flattened-text field. -/

/-- The tag1 child records of a tag3 record's data. -/
def t3kids (kids : List (Option String × String)) : List RecVal :=
  kids.map (fun p => tag1Rec p.1 p.2)

theorem tag1_tag : tag1Schema.tag = "tag1" := rfl

theorem tag2_tag : tag2Schema.tag = "tag2" := rfl

theorem tag3_tag : tag3Schema.tag = "tag3" := rfl

theorem tag3_fields : tag3Schema.fields =
    [Field.attr "att1" ScalarKind.str true, Field.children tag1Schema,
     Field.child tag2Schema, Field.flattenText "text"] := rfl

theorem writeRecord_t1_ne (oa : Option String) (oc : String) :
    writeRecord tag1Schema (tag1Rec oa oc) ≠ [] := by
  cases oa with
  | none => rw [write_tag1_none]; simp
  | some a => rw [write_tag1_some]; simp

theorem t3_step_children (v1 c f : FieldVal) (done : List RecVal) (oa : Option String) (oc : String) :
    BodySteps tag3Schema [v1, FieldVal.childrenF done, c, f]
      (writeRecord tag1Schema (tag1Rec oa oc))
      [v1, FieldVal.childrenF (done ++ [tag1Rec oa oc]), c, f] := by
  intro rest res hr
  obtain ⟨N, hN⟩ := hr
  obtain ⟨N1, h1⟩ := reads_tag1 oa oc rest
  refine ⟨N + N1 + 1, fun fuel hf => ?_⟩
  match fuel, hf with
  | fuel + 1, hf =>
    have e1 : readRecord fuel tag1Schema (writeRecord tag1Schema (tag1Rec oa oc) ++ rest)
        = .ok (tag1Rec oa oc, rest) := h1 fuel (by omega)
    have e2 : readBody fuel tag3Schema [v1, FieldVal.childrenF (done ++ [tag1Rec oa oc]), c, f] rest
        = res := hN fuel (by omega)
    cases oa with
    | none =>
      rw [write_tag1_none] at e1 ⊢
      simp only [List.cons_append, List.nil_append] at e1 ⊢
      simp [readBody, readElemField, tag3_fields, tag1_tag, tag2_tag, e1, e2]
    | some a =>
      rw [write_tag1_some] at e1 ⊢
      simp only [List.cons_append, List.nil_append] at e1 ⊢
      simp [readBody, readElemField, tag3_fields, tag1_tag, tag2_tag, e1, e2]

theorem t3_step_child (v1 f : FieldVal) (ks : List RecVal) (x y : String) :
    BodySteps tag3Schema [v1, FieldVal.childrenF ks, FieldVal.childF none, f]
      (writeRecord tag2Schema (tag2Rec x y))
      [v1, FieldVal.childrenF ks, FieldVal.childF (some (tag2Rec x y)), f] := by
  intro rest res hr
  obtain ⟨N, hN⟩ := hr
  obtain ⟨N1, h1⟩ := reads_tag2 x y rest
  refine ⟨N + N1 + 1, fun fuel hf => ?_⟩
  match fuel, hf with
  | fuel + 1, hf =>
    have e1 : readRecord fuel tag2Schema (writeRecord tag2Schema (tag2Rec x y) ++ rest)
        = .ok (tag2Rec x y, rest) := h1 fuel (by omega)
    have e2 : readBody fuel tag3Schema
        [v1, FieldVal.childrenF ks, FieldVal.childF (some (tag2Rec x y)), f] rest
        = res := hN fuel (by omega)
    rw [write_tag2] at e1 ⊢
    simp only [List.cons_append, List.nil_append] at e1 ⊢
    simp [readBody, readElemField, tag3_fields, tag1_tag, tag2_tag, e1, e2]

theorem t3_step_flatten (v1 g : FieldVal) (ks : List RecVal) (oc : Option RecVal) (t : String) :
    BodySteps tag3Schema [v1, FieldVal.childrenF ks, FieldVal.childF oc, g]
      [Token.start "text" [], Token.text t, Token.close "text"]
      [v1, FieldVal.childrenF ks, FieldVal.childF oc, FieldVal.optScalar (some (Scalar.s t))] := by
  intro rest res hr
  obtain ⟨N, hN⟩ := hr
  refine ⟨N + 3, fun fuel hf => ?_⟩
  match fuel, hf with
  | fuel + 3, hf =>
    have e2 : readBody (fuel + 2) tag3Schema
        [v1, FieldVal.childrenF ks, FieldVal.childF oc, FieldVal.optScalar (some (Scalar.s t))] rest
        = res := hN (fuel + 2) (by omega)
    cases oc <;>
      simp [readBody, readElemField, readFlatten, tag3_fields, tag1_tag, tag2_tag,
        empty_append_str, e2]

theorem t3_steps_children (v1 c f : FieldVal) (kids : List (Option String × String)) :
    ∀ done : List RecVal,
      BodySteps tag3Schema [v1, FieldVal.childrenF done, c, f]
        (writeChildren tag1Schema (t3kids kids))
        [v1, FieldVal.childrenF (done ++ t3kids kids), c, f] := by
  induction kids with
  | nil =>
    intro done
    have h0 : writeChildren tag1Schema (t3kids []) = [] := by simp [t3kids, writeChildren]
    rw [h0]
    simpa [t3kids] using bodySteps_nil tag3Schema [v1, FieldVal.childrenF done, c, f]
  | cons p kids ih =>
    intro done
    have hw : writeChildren tag1Schema (t3kids (p :: kids)) =
        writeRecord tag1Schema (tag1Rec p.1 p.2) ++ writeChildren tag1Schema (t3kids kids) := by
      simp [t3kids, writeChildren]
    rw [hw]
    have h3 := bodySteps_append (t3_step_children v1 c f done p.1 p.2)
      (ih (done ++ [tag1Rec p.1 p.2]))
    simpa [List.append_assoc, t3kids] using h3

/-- The body tokens a tag3 record writes, in field-declaration order:
children elements, then the optional single child, then the optional
flattened-text wrapper. -/
theorem write_tag3_body (a : String) (kids : List (Option String × String))
    (t2 : Option (String × String)) (tx : Option String) :
    writeBody tag3Schema.fields (tag3Rec a kids t2 tx).vals =
      writeChildren tag1Schema (t3kids kids)
        ++ (match t2 with
            | none => []
            | some p => writeRecord tag2Schema (tag2Rec p.1 p.2))
        ++ (match tx with
            | none => []
            | some t => [Token.start "text" [], Token.text t, Token.close "text"]) := by
  cases t2 <;> cases tx <;>
    simp [tag3Schema, tag3Rec, Schema.fields, RecVal.vals, writeBody, writeField,
      renderScalar, t3kids]

theorem attrs_tag3 (a : String) (kids : List (Option String × String))
    (t2 : Option (String × String)) (tx : Option String) :
    attrsOf tag3Schema.fields (tag3Rec a kids t2 tx).vals = [("att1", a)] := by
  cases tx <;>
    simp [tag3Schema, tag3Rec, Schema.fields, RecVal.vals, attrsOf, renderScalar]

theorem init_tag3 (a : String) :
    initAcc "tag3" tag3Schema.fields [("att1", a)] =
      .ok [FieldVal.reqScalar (Scalar.s a), FieldVal.childrenF [], FieldVal.childF none,
        FieldVal.optScalar none] := rfl

theorem t3_body_steps (a : String) (kids : List (Option String × String))
    (t2 : Option (String × String)) (tx : Option String) :
    BodySteps tag3Schema
      [FieldVal.reqScalar (Scalar.s a), FieldVal.childrenF [], FieldVal.childF none,
        FieldVal.optScalar none]
      (writeBody tag3Schema.fields (tag3Rec a kids t2 tx).vals)
      (tag3Rec a kids t2 tx).vals := by
  rw [write_tag3_body]
  have h1 := t3_steps_children (FieldVal.reqScalar (Scalar.s a)) (FieldVal.childF none)
    (FieldVal.optScalar none) kids []
  simp only [List.nil_append] at h1
  cases t2 with
  | none =>
    cases tx with
    | none =>
      have := bodySteps_append (bodySteps_append h1 (bodySteps_nil _ _)) (bodySteps_nil _ _)
      simpa [tag3Rec, RecVal.vals, t3kids] using this
    | some t =>
      have h3 := t3_step_flatten (FieldVal.reqScalar (Scalar.s a))
        (FieldVal.optScalar none) (t3kids kids) none t
      have := bodySteps_append (bodySteps_append h1 (bodySteps_nil _ _)) h3
      simpa [tag3Rec, RecVal.vals, t3kids] using this
  | some p =>
    have h2 := t3_step_child (FieldVal.reqScalar (Scalar.s a))
      (FieldVal.optScalar none) (t3kids kids) p.1 p.2
    cases tx with
    | none =>
      have := bodySteps_append (bodySteps_append h1 h2) (bodySteps_nil _ _)
      simpa [tag3Rec, RecVal.vals, t3kids] using this
    | some t =>
      have h3 := t3_step_flatten (FieldVal.reqScalar (Scalar.s a))
        (FieldVal.optScalar none) (t3kids kids) (some (tag2Rec p.1 p.2)) t
      have := bodySteps_append (bodySteps_append h1 h2) h3
      simpa [tag3Rec, RecVal.vals, t3kids] using this

theorem writeRecord_eq (s : Schema) (v : RecVal) :
    writeRecord s v =
      if (writeBody s.fields v.vals).isEmpty
      then [Token.selfClose s.tag (attrsOf s.fields v.vals)]
      else Token.start s.tag (attrsOf s.fields v.vals)
        :: (writeBody s.fields v.vals ++ [Token.close s.tag]) := by
  cases v with
  | mk vals => simp [writeRecord, RecVal.vals]

theorem write_tag3_nonempty (a : String) (kids : List (Option String × String))
    (t2 : Option (String × String)) (tx : Option String)
    (hne : writeBody tag3Schema.fields (tag3Rec a kids t2 tx).vals ≠ []) :
    writeRecord tag3Schema (tag3Rec a kids t2 tx) =
      Token.start "tag3" [("att1", a)] ::
        (writeBody tag3Schema.fields (tag3Rec a kids t2 tx).vals ++ [Token.close "tag3"]) := by
  have hie : (writeBody tag3Schema.fields (tag3Rec a kids t2 tx).vals).isEmpty = false := by
    cases hB : writeBody tag3Schema.fields (tag3Rec a kids t2 tx).vals with
    | nil => exact absurd hB hne
    | cons x xs => rfl
  rw [writeRecord_eq, hie]
  simp [attrs_tag3 a kids t2 tx, tag3_tag]

theorem write_tag3_empty (a : String) :
    writeRecord tag3Schema (tag3Rec a [] none none) =
      [Token.selfClose "tag3" [("att1", a)]] := by
  simp [writeRecord, tag3Rec, tag3Schema, writeBody, writeField, writeChildren, attrsOf,
    Schema.tag, Schema.fields, renderScalar]

theorem reads_tag3_ne (a : String) (kids : List (Option String × String))
    (t2 : Option (String × String)) (tx : Option String)
    (hne : writeBody tag3Schema.fields (tag3Rec a kids t2 tx).vals ≠ []) :
    ReadsRec tag3Schema (writeRecord tag3Schema (tag3Rec a kids t2 tx)) (tag3Rec a kids t2 tx) := by
  intro rest
  rw [write_tag3_nonempty a kids t2 tx hne]
  simp only [List.cons_append, List.append_assoc, List.singleton_append]
  exact recRuns_start_ok (s := tag3Schema) rfl (init_tag3 a)
    (bodySteps_runs (t3_body_steps a kids t2 tx) rest)

theorem reads_tag3 (a : String) (kids : List (Option String × String))
    (t2 : Option (String × String)) (tx : Option String) :
    ReadsRec tag3Schema (writeRecord tag3Schema (tag3Rec a kids t2 tx)) (tag3Rec a kids t2 tx) := by
  rcases kids with _ | ⟨p, kids⟩
  · rcases t2 with _ | ⟨x, y⟩
    · rcases tx with _ | t
      · intro rest
        rw [write_tag3_empty a]
        exact recRuns_selfClose (s := tag3Schema) (init_tag3 a) rest
      · refine reads_tag3_ne a [] none (some t) ?_
        rw [write_tag3_body]
        simp [t3kids, writeChildren]
    · refine reads_tag3_ne a [] (some (x, y)) tx ?_
      rw [write_tag3_body]
      simp [t3kids, writeChildren, write_tag2]
  · refine reads_tag3_ne a (p :: kids) t2 tx ?_
    rw [write_tag3_body]
    intro h
    obtain ⟨h1, -⟩ := List.append_eq_nil.mp h
    obtain ⟨h2, -⟩ := List.append_eq_nil.mp h1
    have hw : writeChildren tag1Schema (t3kids (p :: kids)) =
        writeRecord tag1Schema (tag1Rec p.1 p.2) ++ writeChildren tag1Schema (t3kids kids) := by
      simp [t3kids, writeChildren]
    rw [hw] at h2
    obtain ⟨h3, -⟩ := List.append_eq_nil.mp h2
    exact writeRecord_t1_ne p.1 p.2 h3

theorem reads_break (ot : Option BreakType) :
    ReadsRec breakSchema (writeRecord breakSchema (breakRec ot)) (breakRec ot) := by
  intro rest
  cases ot with
  | none =>
    rw [write_break_none]
    exact recRuns_selfClose (s := breakSchema) init_break_none rest
  | some t =>
    rw [write_break_some]
    exact recRuns_selfClose (s := breakSchema) (init_break_some t) rest

/-! Unknown-element tolerance: arbitrary element subtrees and the proof
that the reader skips them without disturbing the record being built. -/

/-- An arbitrary XML subtree: an element with a body, a self-closing
element, or a text run. -/
inductive XTree where
  | elem (n : String) (attrs : List (String × String)) (kids : List XTree)
  | leafE (n : String) (attrs : List (String × String))
  | txt (t : String)

mutual

/-- The token stream of a subtree. -/
def xtokens : XTree → List Token
  | .elem n attrs kids => Token.start n attrs :: (xforest kids ++ [Token.close n])
  | .leafE n attrs => [Token.selfClose n attrs]
  | .txt t => [Token.text t]
termination_by t => sizeOf t

/-- The token stream of a list of sibling subtrees. -/
def xforest : List XTree → List Token
  | [] => []
  | t :: ts => xtokens t ++ xforest ts
termination_by ts => sizeOf ts

end

/-- Does a field descriptor's declared body tag equal this element name
(Child, Children and FlattenText fields only)? -/
def fieldMatches : Field → String → Bool
  | Field.child sub, n => sub.tag = n
  | Field.children sub, n => sub.tag = n
  | Field.flattenText w, n => w = n
  | _, _ => false

/-- The skipper on a fixed depth and stream yields this result at every
sufficiently large fuel. -/
def SkipRuns (d : Nat) (toks : List Token) (res : Except Error (List Token)) : Prop :=
  ∃ N, ∀ fuel, N ≤ fuel → skipToClose fuel d toks = res

/-- A token block is neutral for the skipper: at any depth, prepending it
preserves any continuation's result. -/
def SkipSteps (ts : List Token) : Prop :=
  ∀ d rest res, SkipRuns d rest res → SkipRuns d (ts ++ rest) res

theorem skipSteps_nil : SkipSteps [] := by
  intro d rest res h
  simpa using h

theorem skipSteps_append {t1 t2 : List Token} (h1 : SkipSteps t1) (h2 : SkipSteps t2) :
    SkipSteps (t1 ++ t2) := by
  intro d rest res h
  have h3 := h1 d (t2 ++ rest) res (h2 d rest res h)
  simpa [List.append_assoc] using h3

theorem skipSteps_txt (t : String) : SkipSteps [Token.text t] := by
  intro d rest res hr
  obtain ⟨N, h⟩ := hr
  refine ⟨N + 1, fun fuel hf => ?_⟩
  match fuel, hf with
  | fuel + 1, hf => simp [skipToClose, h fuel (by omega)]

theorem skipSteps_selfClose (n : String) (attrs : List (String × String)) :
    SkipSteps [Token.selfClose n attrs] := by
  intro d rest res hr
  obtain ⟨N, h⟩ := hr
  refine ⟨N + 1, fun fuel hf => ?_⟩
  match fuel, hf with
  | fuel + 1, hf => simp [skipToClose, h fuel (by omega)]

theorem skipSteps_elemWrap {inner : List Token} (hin : SkipSteps inner)
    (n : String) (attrs : List (String × String)) :
    SkipSteps (Token.start n attrs :: (inner ++ [Token.close n])) := by
  intro d rest res hr
  have hclose : SkipRuns (d + 1) (Token.close n :: rest) res := by
    obtain ⟨N, h⟩ := hr
    refine ⟨N + 1, fun fuel hf => ?_⟩
    match fuel, hf with
    | fuel + 1, hf => simp [skipToClose, h fuel (by omega)]
  obtain ⟨N, h⟩ := hin (d + 1) (Token.close n :: rest) res hclose
  refine ⟨N + 1, fun fuel hf => ?_⟩
  match fuel, hf with
  | fuel + 1, hf =>
    have hm := h fuel (by omega)
    simp only [List.cons_append, List.append_assoc, List.singleton_append]
    simp [skipToClose, hm]

theorem skipSteps_forest_of (l : List XTree) (h : ∀ x ∈ l, SkipSteps (xtokens x)) :
    SkipSteps (xforest l) := by
  induction l with
  | nil =>
    have h0 : xforest [] = [] := by simp [xforest]
    rw [h0]
    exact skipSteps_nil
  | cons t ts ih =>
    have h0 : xforest (t :: ts) = xtokens t ++ xforest ts := by simp [xforest]
    rw [h0]
    exact skipSteps_append (h t (List.mem_cons_self t ts))
      (ih (fun x hx => h x (List.mem_cons_of_mem t hx)))

theorem skipSteps_xtree (t : XTree) : SkipSteps (xtokens t) := by
  suffices hgen : ∀ b : Nat, ∀ t : XTree, sizeOf t ≤ b → SkipSteps (xtokens t) by
    exact hgen (sizeOf t) t le_rfl
  intro b
  induction b using Nat.strong_induction_on with
  | _ b ih =>
    intro t ht
    cases t with
    | txt s =>
      have h0 : xtokens (XTree.txt s) = [Token.text s] := by simp [xtokens]
      rw [h0]
      exact skipSteps_txt s
    | leafE n attrs =>
      have h0 : xtokens (XTree.leafE n attrs) = [Token.selfClose n attrs] := by simp [xtokens]
      rw [h0]
      exact skipSteps_selfClose n attrs
    | elem n attrs kids =>
      have h0 : xtokens (XTree.elem n attrs kids) =
          Token.start n attrs :: (xforest kids ++ [Token.close n]) := by simp [xtokens]
      rw [h0]
      refine skipSteps_elemWrap (skipSteps_forest_of kids (fun x hx => ?_)) n attrs
      have hlt : sizeOf x < sizeOf (XTree.elem n attrs kids) := by
        have h1 : sizeOf x < sizeOf kids := List.sizeOf_lt_of_mem hx
        simp only [XTree.elem.sizeOf_spec]
        omega
      exact ih (sizeOf x) (by omega) x le_rfl

/-- An element dispatch finds no field when the element's name matches no
declared Child, Children or FlattenText tag. -/
theorem elemField_none (fuel : Nat) (n : String) (tok : Token) (rest : List Token) :
    ∀ (fs : List Field) (acc : List FieldVal),
      (∀ f ∈ fs, fieldMatches f n = false) →
      readElemField fuel fs acc n tok rest = .ok none := by
  intro fs
  induction fs with
  | nil => intro acc h; cases acc <;> simp [readElemField]
  | cons f fs ih =>
    intro acc h
    have hf : fieldMatches f n = false := h f (List.mem_cons_self f fs)
    have hrest : ∀ g ∈ fs, fieldMatches g n = false :=
      fun g hg => h g (List.mem_cons_of_mem f hg)
    cases acc with
    | nil => cases f <;> simp [readElemField]
    | cons v vs =>
      cases f with
      | child sub =>
        have hne : ¬ sub.tag = n := by simpa [fieldMatches] using hf
        cases v with
        | childF o => cases o <;> simp [readElemField, hne, ih vs hrest]
        | reqScalar sc => simp [readElemField, hne, ih vs hrest]
        | optScalar o => simp [readElemField, hne, ih vs hrest]
        | childrenF l => simp [readElemField, hne, ih vs hrest]
      | children sub =>
        have hne : ¬ sub.tag = n := by simpa [fieldMatches] using hf
        cases v <;> simp [readElemField, hne, ih vs hrest]
      | flattenText w =>
        have hne : ¬ w = n := by simpa [fieldMatches] using hf
        cases tok <;> simp [readElemField, hne, ih vs hrest]
      | attr an k req => simp [readElemField, ih vs hrest]
      | text => simp [readElemField, ih vs hrest]

/-- Skipping an unknown self-closing sibling leaves the accumulator and the
rest of the read untouched. -/
theorem bodySteps_unknown_selfClose {s : Schema} (acc : List FieldVal)
    (n : String) (attrs : List (String × String))
    (h : ∀ f ∈ s.fields, fieldMatches f n = false) :
    BodySteps s acc [Token.selfClose n attrs] acc := by
  intro rest res hr
  obtain ⟨N, hN⟩ := hr
  refine ⟨N + 1, fun fuel hf => ?_⟩
  match fuel, hf with
  | fuel + 1, hf =>
    simp [readBody, elemField_none fuel n (Token.selfClose n attrs) rest s.fields acc h,
      hN fuel (by omega)]

/-- Skipping an unknown element sibling, together with its entire subtree of
arbitrary depth, leaves the accumulator and the rest of the read untouched. -/
theorem bodySteps_unknown_elem {s : Schema} (acc : List FieldVal)
    (n : String) (attrs : List (String × String)) (kids : List XTree)
    (h : ∀ f ∈ s.fields, fieldMatches f n = false) :
    BodySteps s acc (xtokens (XTree.elem n attrs kids)) acc := by
  intro rest res hr
  have hcl : SkipRuns 0 (Token.close n :: rest) (.ok rest) := by
    refine ⟨1, fun fuel hf => ?_⟩
    match fuel, hf with
    | fuel + 1, _ => simp [skipToClose]
  obtain ⟨N1, h1⟩ := skipSteps_forest_of kids (fun x _ => skipSteps_xtree x) 0
    (Token.close n :: rest) (.ok rest) hcl
  obtain ⟨N, hN⟩ := hr
  refine ⟨N + N1 + 1, fun fuel hf => ?_⟩
  match fuel, hf with
  | fuel + 1, hf =>
    have h0 : xtokens (XTree.elem n attrs kids) =
        Token.start n attrs :: (xforest kids ++ [Token.close n]) := by simp [xtokens]
    rw [h0]
    simp only [List.cons_append, List.append_assoc, List.singleton_append]
    simp [readBody, elemField_none fuel n (Token.start n attrs) _ s.fields acc h,
      h1 fuel (by omega), hN fuel (by omega)]

/-! Union dispatch lemmas. -/

theorem findVariant_of_get (n : String) :
    ∀ (vs : List Schema) (i : Nat) (si : Schema),
      vs[i]? = some si → si.tag = n →
      (∀ j, j < i → ∀ sj : Schema, vs[j]? = some sj → sj.tag ≠ n) →
      findVariant vs n = some (i, si) := by
  intro vs
  induction vs with
  | nil => intro i si hi; simp at hi
  | cons s vs ih =>
    intro i si hi ht hpre
    cases i with
    | zero =>
      simp at hi
      subst hi
      simp [findVariant, ht]
    | succ i =>
      have hne : s.tag ≠ n := hpre 0 (by omega) s (by simp)
      have hi2 : vs[i]? = some si := by simpa using hi
      have hpre2 : ∀ j, j < i → ∀ sj : Schema, vs[j]? = some sj → sj.tag ≠ n := by
        intro j hj sj hsj
        exact hpre (j + 1) (by omega) sj (by simpa using hsj)
      simp [findVariant, hne, ih i si hi2 ht hpre2]

theorem findVariant_none (n : String) :
    ∀ vs : List Schema, (∀ s ∈ vs, s.tag ≠ n) → findVariant vs n = none := by
  intro vs
  induction vs with
  | nil => intro _; rfl
  | cons s vs ih =>
    intro h
    have hne : s.tag ≠ n := h s (List.mem_cons_self s vs)
    simp [findVariant, hne, ih (fun x hx => h x (List.mem_cons_of_mem s hx))]

theorem readUnion_dispatch_start (fuel : Nat) (vs : List Schema) (n : String) (i : Nat)
    (si : Schema) (attrs : List (String × String)) (rest : List Token)
    (hfind : findVariant vs n = some (i, si)) :
    readUnion fuel vs (Token.start n attrs :: rest) =
      (match readRecord fuel si (Token.start n attrs :: rest) with
       | .ok (r, rest2) => .ok ((i, r), rest2)
       | .error e => .error e) := by
  simp [readUnion, hfind]

theorem readUnion_dispatch_selfClose (fuel : Nat) (vs : List Schema) (n : String) (i : Nat)
    (si : Schema) (attrs : List (String × String)) (rest : List Token)
    (hfind : findVariant vs n = some (i, si)) :
    readUnion fuel vs (Token.selfClose n attrs :: rest) =
      (match readRecord fuel si (Token.selfClose n attrs :: rest) with
       | .ok (r, rest2) => .ok ((i, r), rest2)
       | .error e => .error e) := by
  simp [readUnion, hfind]

theorem readUnion_nomatch_start (fuel : Nat) (vs : List Schema) (n : String)
    (attrs : List (String × String)) (rest : List Token)
    (h : ∀ s ∈ vs, s.tag ≠ n) :
    readUnion fuel vs (Token.start n attrs :: rest) =
      .error (.unexpectedTag (unionExpected vs) n) := by
  simp [readUnion, findVariant_none n vs h]

theorem readUnion_nomatch_selfClose (fuel : Nat) (vs : List Schema) (n : String)
    (attrs : List (String × String)) (rest : List Token)
    (h : ∀ s ∈ vs, s.tag ≠ n) :
    readUnion fuel vs (Token.selfClose n attrs :: rest) =
      .error (.unexpectedTag (unionExpected vs) n) := by
  simp [readUnion, findVariant_none n vs h]

/-! Attribute-phase lemmas (required versus optional attributes). -/

theorem initAcc_append (tg : String) (attrs : List (String × String)) :
    ∀ fs1 fs2 : List Field,
      initAcc tg (fs1 ++ fs2) attrs =
        (match initAcc tg fs1 attrs with
         | .ok l =>
           match initAcc tg fs2 attrs with
           | .ok r => .ok (l ++ r)
           | .error e => .error e
         | .error e => .error e) := by
  intro fs1 fs2
  induction fs1 with
  | nil =>
    cases h2 : initAcc tg fs2 attrs <;> simp [initAcc, h2]
  | cons f fs1 ih =>
    cases f with
    | attr an k req =>
      cases hl : lookupAttr attrs an with
      | some t =>
        cases hsc : toScalar k t with
        | ok sc => simp [initAcc, hl, hsc, ih]
                   cases h1 : initAcc tg fs1 attrs <;>
                     cases h2 : initAcc tg fs2 attrs <;> simp
        | error e => simp [initAcc, hl, hsc]
      | none =>
        cases req with
        | true => simp [initAcc, hl]
        | false =>
          simp [initAcc, hl, ih]
          cases h1 : initAcc tg fs1 attrs <;>
            cases h2 : initAcc tg fs2 attrs <;> simp
    | text =>
      simp [initAcc, ih]
      cases h1 : initAcc tg fs1 attrs <;> cases h2 : initAcc tg fs2 attrs <;> simp
    | flattenText w =>
      simp [initAcc, ih]
      cases h1 : initAcc tg fs1 attrs <;> cases h2 : initAcc tg fs2 attrs <;> simp
    | child sub =>
      simp [initAcc, ih]
      cases h1 : initAcc tg fs1 attrs <;> cases h2 : initAcc tg fs2 attrs <;> simp
    | children sub =>
      simp [initAcc, ih]
      cases h1 : initAcc tg fs1 attrs <;> cases h2 : initAcc tg fs2 attrs <;> simp

theorem initAcc_missing_required (tg : String) (pre post : List Field) (an : String)
    (k : ScalarKind) (attrs : List (String × String)) (acc0 : List FieldVal)
    (hpre : initAcc tg pre attrs = .ok acc0) (habs : lookupAttr attrs an = none) :
    initAcc tg (pre ++ Field.attr an k true :: post) attrs =
      .error (.missingField tg an) := by
  rw [initAcc_append]
  simp [hpre, initAcc, habs]

theorem initAcc_optional_absent (tg : String) (pre post : List Field) (an : String)
    (k : ScalarKind) (attrs : List (String × String)) (acc0 acc1 : List FieldVal)
    (hpre : initAcc tg pre attrs = .ok acc0) (hpost : initAcc tg post attrs = .ok acc1)
    (habs : lookupAttr attrs an = none) :
    initAcc tg (pre ++ Field.attr an k false :: post) attrs =
      .ok (acc0 ++ FieldVal.optScalar none :: acc1) := by
  rw [initAcc_append]
  simp [hpre, initAcc, habs, hpost]

/-! Leaf/self-closing lemmas: default records and body content. -/

/-- Is the field a required attribute? -/
def isRequiredAttr : Field → Bool
  | Field.attr _ _ true => true
  | _ => false

/-- The all-defaults record skeleton: absent optionals, empty string text,
empty sequences. -/
def defaultAcc (fs : List Field) : List FieldVal := fs.map initField

theorem initAcc_no_attrs (tg : String) :
    ∀ fs : List Field, (∀ f ∈ fs, isRequiredAttr f = false) →
      initAcc tg fs [] = .ok (defaultAcc fs) := by
  intro fs
  induction fs with
  | nil => intro _; rfl
  | cons f fs ih =>
    intro h
    have hrest := ih (fun x hx => h x (List.mem_cons_of_mem f hx))
    cases f with
    | attr an k req =>
      cases req with
      | true => exact absurd (h _ (List.mem_cons_self _ fs)) (by simp [isRequiredAttr])
      | false => simp [initAcc, lookupAttr, hrest, defaultAcc, initField]
    | text => simp [initAcc, hrest, defaultAcc, initField]
    | flattenText w => simp [initAcc, hrest, defaultAcc, initField]
    | child sub => simp [initAcc, hrest, defaultAcc, initField]
    | children sub => simp [initAcc, hrest, defaultAcc, initField]

/-- Body content as the spec defines it (section 4.3): a Text field, a
present FlattenText, a present Child, or a non-empty Children sequence. -/
def hasBodyContent : List Field → List FieldVal → Bool
  | Field.text :: _, FieldVal.reqScalar _ :: _ => true
  | Field.flattenText _ :: _, FieldVal.optScalar (some _) :: _ => true
  | Field.child _ :: _, FieldVal.childF (some _) :: _ => true
  | Field.children _ :: _, FieldVal.childrenF (_ :: _) :: _ => true
  | _ :: fs, _ :: vs => hasBodyContent fs vs
  | _, _ => false

theorem writeRecord_ne_nil (s : Schema) (v : RecVal) : writeRecord s v ≠ [] := by
  rw [writeRecord_eq]
  split <;> simp

theorem writeBody_nil_iff :
    ∀ (fs : List Field) (vs : List FieldVal),
      writeBody fs vs = [] ↔ hasBodyContent fs vs = false := by
  intro fs
  induction fs with
  | nil => intro vs; cases vs <;> simp [writeBody, hasBodyContent]
  | cons f fs ih =>
    intro vs
    cases vs with
    | nil => cases f <;> simp [writeBody, hasBodyContent]
    | cons v vs =>
      have hw : writeBody (f :: fs) (v :: vs) = writeField f v ++ writeBody fs vs := by
        simp [writeBody]
      rw [hw, List.append_eq_nil, ih vs]
      cases f with
      | attr an k req => simp [writeField, hasBodyContent]
      | text =>
        cases v <;> simp [writeField, hasBodyContent]
      | flattenText w =>
        cases v with
        | optScalar o => cases o <;> simp [writeField, hasBodyContent]
        | reqScalar sc => simp [writeField, hasBodyContent]
        | childF o => simp [writeField, hasBodyContent]
        | childrenF l => simp [writeField, hasBodyContent]
      | child sub =>
        cases v with
        | childF o =>
          cases o with
          | none => simp [writeField, hasBodyContent]
          | some r => simp [writeField, hasBodyContent, writeRecord_ne_nil sub r]
        | reqScalar sc => simp [writeField, hasBodyContent]
        | optScalar o => simp [writeField, hasBodyContent]
        | childrenF l => simp [writeField, hasBodyContent]
      | children sub =>
        cases v with
        | childrenF l =>
          cases l with
          | nil => simp [writeField, writeChildren, hasBodyContent]
          | cons r rs =>
            have hwc : writeChildren sub (r :: rs) = writeRecord sub r ++ writeChildren sub rs := by
              simp [writeChildren]
            simp [writeField, hasBodyContent, hwc, List.append_eq_nil, writeRecord_ne_nil sub r]
        | reqScalar sc => simp [writeField, hasBodyContent]
        | optScalar o => simp [writeField, hasBodyContent]
        | childF o => simp [writeField, hasBodyContent]

/-- The writer emits a single self-closing tag exactly when the record has
no body content. -/
theorem writeRecord_selfClose_of_noBody (s : Schema) (v : RecVal)
    (h : hasBodyContent s.fields v.vals = false) :
    writeRecord s v = [Token.selfClose s.tag (attrsOf s.fields v.vals)] := by
  have hb : writeBody s.fields v.vals = [] := (writeBody_nil_iff s.fields v.vals).mpr h
  rw [writeRecord_eq, hb]
  rfl

/-! Remaining helpers: duplicate single child, unknown enum literal,
serialized output, union runs. -/

/-- The union reader on a fixed stream yields this result at every
sufficiently large fuel. -/
def UnionRuns (vs : List Schema) (toks : List Token)
    (res : Except Error ((Nat × RecVal) × List Token)) : Prop :=
  ∃ N, ∀ fuel, N ≤ fuel → readUnion fuel vs toks = res

/-- A second occurrence of the non-repeating single tag2 child of tag3 is
an UnexpectedEvent error. -/
theorem bodyRuns_dup_child (v1 f : FieldVal) (ks : List RecVal) (r : RecVal)
    (attrs : List (String × String)) (toks : List Token) :
    BodyRuns tag3Schema [v1, FieldVal.childrenF ks, FieldVal.childF (some r), f]
      (Token.selfClose "tag2" attrs :: toks)
      (.error (.unexpectedEvent "single child" "tag2")) := by
  refine ⟨1, fun fuel hf => ?_⟩
  match fuel, hf with
  | fuel + 1, _ =>
    simp [readBody, readElemField, tag3_fields, tag1_tag, tag2_tag]

theorem breakExpected_eq :
    String.intercalate " | " breakLits = "column | page | textWrapping" := rfl

theorem break_unknown_runs (t : String) (h : breakLits.contains t = false) (rest : List Token) :
    RecRuns breakSchema (Token.selfClose "w:br" [("w:type", t)] :: rest)
      (.error (.unknownValue "column | page | textWrapping" t)) := by
  apply recRuns_selfClose_err (s := breakSchema)
  show initAcc "w:br" breakSchema.fields [("w:type", t)] = _
  have hm : ¬ t ∈ breakLits := by simpa using h
  simp [breakSchema, Schema.fields, initAcc, lookupAttr, toScalar, hm, breakExpected_eq]

theorem break_known_runs (t : BreakType) (rest : List Token) :
    RecRuns breakSchema (Token.selfClose "w:br" [("w:type", t.lit)] :: rest)
      (.ok (breakRec (some t), rest)) :=
  recRuns_selfClose (s := breakSchema) (init_break_some t) rest

theorem init_tag2_swapped (x y : String) :
    initAcc "tag2" tag2Schema.fields [("att2", y), ("att1", x)] =
      .ok [FieldVal.reqScalar (Scalar.s x), FieldVal.reqScalar (Scalar.s y)] := rfl

theorem reads_tag2_swapped (x y : String) (rest : List Token) :
    RecRuns tag2Schema (Token.selfClose "tag2" [("att2", y), ("att1", x)] :: rest)
      (.ok (tag2Rec x y, rest)) :=
  recRuns_selfClose (s := tag2Schema) (init_tag2_swapped x y) rest

theorem findVariant_tag2 : findVariant tagUnion "tag2" = some (1, tag2Schema) := rfl

theorem unionRuns_tag2_swapped (x y : String) (rest : List Token) :
    UnionRuns tagUnion (Token.selfClose "tag2" [("att2", y), ("att1", x)] :: rest)
      (.ok ((1, tag2Rec x y), rest)) := by
  obtain ⟨N, h⟩ := reads_tag2_swapped x y rest
  refine ⟨N, fun fuel hf => ?_⟩
  rw [readUnion_dispatch_selfClose fuel tagUnion "tag2" 1 tag2Schema _ rest findVariant_tag2,
    h fuel hf]

theorem serialize_dstrike_none :
    serialize (writeRecord dstrikeSchema (dstrikeRec none)) = "<w:dstrike/>" := by
  rw [write_dstrike_none]
  rfl

theorem serialize_dstrike_false :
    serialize (writeRecord dstrikeSchema (dstrikeRec (some false))) =
      "<w:dstrike w:val=\"false\"/>" := by
  rw [write_dstrike_some false]
  rfl

theorem serialize_break_none :
    serialize (writeRecord breakSchema (breakRec none)) = "<w:br/>" := by
  rw [write_break_none]
  rfl

theorem serialize_tag2_v1v2 :
    serialize (writeRecord tag2Schema (tag2Rec "v1" "v2")) =
      "<tag2 att1=\"v1\" att2=\"v2\"/>" := by
  rw [write_tag2]
  rfl

/-- The concrete scenario of the codegen test_read: tag3 with one tag1
child, a flattened-text field, and two unknown siblings tag4 and tag5. -/
theorem reads_tag3_with_unknowns (rest : List Token) :
    RecRuns tag3Schema
      (Token.start "tag3" [("att1", "att1")] :: Token.start "tag1" [] :: Token.text "content" ::
        Token.close "tag1" :: Token.start "text" [] :: Token.text "tag3_content" ::
        Token.close "text" :: Token.selfClose "tag4" [] ::
        Token.selfClose "tag5" [("att1", "tag5_att1")] :: Token.close "tag3" :: rest)
      (.ok (tag3Rec "att1" [(none, "content")] none (some "tag3_content"), rest)) := by
  have s1 := t3_step_children (FieldVal.reqScalar (Scalar.s "att1")) (FieldVal.childF none)
    (FieldVal.optScalar none) [] none "content"
  rw [write_tag1_none] at s1
  have s2 := t3_step_flatten (FieldVal.reqScalar (Scalar.s "att1"))
    (FieldVal.optScalar none) [tag1Rec none "content"] none "tag3_content"
  have s3 := bodySteps_unknown_selfClose
    (s := tag3Schema)
    [FieldVal.reqScalar (Scalar.s "att1"), FieldVal.childrenF [tag1Rec none "content"],
      FieldVal.childF none, FieldVal.optScalar (some (Scalar.s "tag3_content"))]
    "tag4" [] (by decide)
  have s4 := bodySteps_unknown_selfClose
    (s := tag3Schema)
    [FieldVal.reqScalar (Scalar.s "att1"), FieldVal.childrenF [tag1Rec none "content"],
      FieldVal.childF none, FieldVal.optScalar (some (Scalar.s "tag3_content"))]
    "tag5" [("att1", "tag5_att1")] (by decide)
  have hcomp := bodySteps_append (bodySteps_append (bodySteps_append s1 s2) s3) s4
  have hb := bodySteps_runs hcomp rest
  have hrec := recRuns_start_ok (s := tag3Schema) rfl (init_tag3 "att1") hb
  simpa using hrec

/-- Two tag1 children written in sequence, in declaration order. -/
theorem write_tag3_two (a : String) (k1 k2 : Option String × String) :
    writeRecord tag3Schema (tag3Rec a [k1, k2] none none) =
      Token.start "tag3" [("att1", a)] ::
        ((writeRecord tag1Schema (tag1Rec k1.1 k1.2) ++ writeRecord tag1Schema (tag1Rec k2.1 k2.2))
          ++ [Token.close "tag3"]) := by
  have hne : writeBody tag3Schema.fields (tag3Rec a [k1, k2] none none).vals ≠ [] := by
    rw [write_tag3_body]
    intro hcontra
    obtain ⟨hc1, -⟩ := List.append_eq_nil.mp hcontra
    obtain ⟨hc2, -⟩ := List.append_eq_nil.mp hc1
    have hw : writeChildren tag1Schema (t3kids [k1, k2]) =
        writeRecord tag1Schema (tag1Rec k1.1 k1.2) ++
          (writeRecord tag1Schema (tag1Rec k2.1 k2.2) ++ []) := by
      simp [t3kids, writeChildren]
    rw [hw] at hc2
    obtain ⟨hc3, -⟩ := List.append_eq_nil.mp hc2
    exact writeRecord_t1_ne k1.1 k1.2 hc3
  rw [write_tag3_nonempty a [k1, k2] none none hne, write_tag3_body]
  simp [t3kids, writeChildren]

theorem reads_tag3_two (a : String) (k1 k2 : Option String × String) (rest : List Token) :
    RecRuns tag3Schema
      (Token.start "tag3" [("att1", a)] ::
        ((writeRecord tag1Schema (tag1Rec k1.1 k1.2) ++ writeRecord tag1Schema (tag1Rec k2.1 k2.2))
          ++ (Token.close "tag3" :: rest)))
      (.ok (tag3Rec a [k1, k2] none none, rest)) := by
  have h := reads_tag3 a [k1, k2] none none rest
  rw [write_tag3_two] at h
  simpa [List.append_assoc] using h

/-! The claims. -/

/-- Claim C1: for every record type of the repository and every record
containing only engine-representable values (populated optional fields
included), reading back the writer's output reproduces the original
record: read(write(record)) = record, consuming exactly the written
tokens, whatever follows them. -/
theorem claim1_roundtrip :
    (∀ (att1 : Option String) (content : String),
      ReadsRec tag1Schema (writeRecord tag1Schema (tag1Rec att1 content)) (tag1Rec att1 content)) ∧
    (∀ att1 att2 : String,
      ReadsRec tag2Schema (writeRecord tag2Schema (tag2Rec att1 att2)) (tag2Rec att1 att2)) ∧
    (∀ (att1 : String) (kids : List (Option String × String))
        (t2 : Option (String × String)) (tx : Option String),
      ReadsRec tag3Schema (writeRecord tag3Schema (tag3Rec att1 kids t2 tx))
        (tag3Rec att1 kids t2 tx)) ∧
    (∀ value : Option Bool,
      ReadsRec dstrikeSchema (writeRecord dstrikeSchema (dstrikeRec value)) (dstrikeRec value)) ∧
    (∀ value : Option Int,
      ReadsRec positionSchema (writeRecord positionSchema (positionRec value)) (positionRec value)) ∧
    (∀ ty : Option BreakType,
      ReadsRec breakSchema (writeRecord breakSchema (breakRec ty)) (breakRec ty)) :=
  ⟨reads_tag1, reads_tag2, reads_tag3, reads_dstrike, reads_position, reads_break⟩

/-- Witness for C1: the round trip at one concrete tag3 record with a
populated child list, single child and flattened text. -/
theorem claim1_roundtrip_witness :
    ReadsRec tag3Schema
      (writeRecord tag3Schema (tag3Rec "a" [(none, "c")] (some ("p", "q")) (some "t")))
      (tag3Rec "a" [(none, "c")] (some ("p", "q")) (some "t")) :=
  claim1_roundtrip.2.2.1 "a" [(none, "c")] (some ("p", "q")) (some "t")

/-- Claim C2: for the leaf schema tag2 (required string attributes att1,
att2), reading the self-closing element yields the record whatever the
order of the two attributes in the input, and writing the record emits the
attributes in field-declaration order, serializing to
the expected XML text. -/
theorem claim2_tag2_attribute_order :
    (∀ (v1 v2 : String) (rest : List Token),
      RecRuns tag2Schema (Token.selfClose "tag2" [("att1", v1), ("att2", v2)] :: rest)
        (.ok (tag2Rec v1 v2, rest)) ∧
      RecRuns tag2Schema (Token.selfClose "tag2" [("att2", v2), ("att1", v1)] :: rest)
        (.ok (tag2Rec v1 v2, rest))) ∧
    (∀ v1 v2 : String,
      writeRecord tag2Schema (tag2Rec v1 v2) =
        [Token.selfClose "tag2" [("att1", v1), ("att2", v2)]]) ∧
    serialize (writeRecord tag2Schema (tag2Rec "v1" "v2")) = "<tag2 att1=\"v1\" att2=\"v2\"/>" :=
  ⟨fun v1 v2 rest =>
      ⟨recRuns_selfClose (s := tag2Schema) (init_tag2 v1 v2) rest,
        reads_tag2_swapped v1 v2 rest⟩,
    write_tag2, serialize_tag2_v1v2⟩

/-- Witness for C2: the attribute-swapped read at v1, v2. -/
theorem claim2_tag2_attribute_order_witness :
    RecRuns tag2Schema (Token.selfClose "tag2" [("att2", "v2"), ("att1", "v1")] :: [])
      (.ok (tag2Rec "v1" "v2", [])) :=
  (claim2_tag2_attribute_order.1 "v1" "v2" []).2

/-- Claim C3: for every schema, an unknown sibling element (self-closing,
or with a nested subtree of arbitrary depth) whose name matches no
declared Child, Children or FlattenText field is skipped without error and
without affecting the record being built; concretely, the codegen
test_read scenario with unknown siblings tag4 and tag5 reads to the record
that ignores them. -/
theorem claim3_unknown_sibling_tolerance :
    (∀ (s : Schema) (acc : List FieldVal) (n : String)
        (attrs : List (String × String)) (kids : List XTree),
      (∀ f ∈ s.fields, fieldMatches f n = false) →
      BodySteps s acc (xtokens (XTree.elem n attrs kids)) acc ∧
      BodySteps s acc [Token.selfClose n attrs] acc) ∧
    (∀ rest : List Token,
      RecRuns tag3Schema
        (Token.start "tag3" [("att1", "att1")] :: Token.start "tag1" [] :: Token.text "content" ::
          Token.close "tag1" :: Token.start "text" [] :: Token.text "tag3_content" ::
          Token.close "text" :: Token.selfClose "tag4" [] ::
          Token.selfClose "tag5" [("att1", "tag5_att1")] :: Token.close "tag3" :: rest)
        (.ok (tag3Rec "att1" [(none, "content")] none (some "tag3_content"), rest))) :=
  ⟨fun _ acc n attrs kids h =>
      ⟨bodySteps_unknown_elem acc n attrs kids h, bodySteps_unknown_selfClose acc n attrs h⟩,
    reads_tag3_with_unknowns⟩

/-- Witness for C3: skipping a concrete unknown element with a nested
child inside a tag3 body. -/
theorem claim3_unknown_sibling_tolerance_witness :
    BodySteps tag3Schema
      [FieldVal.reqScalar (Scalar.s "a"), FieldVal.childrenF [], FieldVal.childF none,
        FieldVal.optScalar none]
      (xtokens (XTree.elem "tag4" [] [XTree.leafE "tag6" [], XTree.txt "deep"]))
      [FieldVal.reqScalar (Scalar.s "a"), FieldVal.childrenF [], FieldVal.childF none,
        FieldVal.optScalar none] :=
  (claim3_unknown_sibling_tolerance.1 tag3Schema
    [FieldVal.reqScalar (Scalar.s "a"), FieldVal.childrenF [], FieldVal.childF none,
      FieldVal.optScalar none]
    "tag4" [] [XTree.leafE "tag6" [], XTree.txt "deep"] (by decide)).1

/-- Claim C4: union read dispatches purely on the peeked tag name of the
next start or self-closing token: a tag equal to some variant's schema tag
selects that variant, populated by that variant's own record reader; a tag
matching no variant fails with UnexpectedTag carrying the expected set and
the found tag. -/
theorem claim4_union_dispatch :
    (∀ (fuel : Nat) (vs : List Schema) (n : String) (i : Nat) (si : Schema)
        (attrs : List (String × String)) (rest : List Token),
      vs[i]? = some si → si.tag = n →
      (∀ j, j < i → ∀ sj : Schema, vs[j]? = some sj → sj.tag ≠ n) →
      readUnion fuel vs (Token.start n attrs :: rest) =
        (match readRecord fuel si (Token.start n attrs :: rest) with
         | .ok (r, rest2) => .ok ((i, r), rest2)
         | .error e => .error e) ∧
      readUnion fuel vs (Token.selfClose n attrs :: rest) =
        (match readRecord fuel si (Token.selfClose n attrs :: rest) with
         | .ok (r, rest2) => .ok ((i, r), rest2)
         | .error e => .error e)) ∧
    (∀ (fuel : Nat) (vs : List Schema) (n : String) (attrs : List (String × String))
        (rest : List Token),
      (∀ s ∈ vs, s.tag ≠ n) →
      readUnion fuel vs (Token.start n attrs :: rest) =
        .error (.unexpectedTag (unionExpected vs) n) ∧
      readUnion fuel vs (Token.selfClose n attrs :: rest) =
        .error (.unexpectedTag (unionExpected vs) n)) ∧
    (∀ (x y : String) (rest : List Token),
      UnionRuns tagUnion (Token.selfClose "tag2" [("att2", y), ("att1", x)] :: rest)
        (.ok ((1, tag2Rec x y), rest))) :=
  ⟨fun fuel vs n i si attrs rest hi ht hpre =>
      ⟨readUnion_dispatch_start fuel vs n i si attrs rest (findVariant_of_get n vs i si hi ht hpre),
        readUnion_dispatch_selfClose fuel vs n i si attrs rest
          (findVariant_of_get n vs i si hi ht hpre)⟩,
    fun fuel vs n attrs rest h =>
      ⟨readUnion_nomatch_start fuel vs n attrs rest h,
        readUnion_nomatch_selfClose fuel vs n attrs rest h⟩,
    unionRuns_tag2_swapped⟩

/-- Witness for C4: no variant of the tag1|tag2|tag3 union matches tag9. -/
theorem claim4_union_dispatch_witness :
    readUnion 5 tagUnion (Token.selfClose "tag9" [] :: []) =
      .error (.unexpectedTag (unionExpected tagUnion) "tag9") :=
  (claim4_union_dispatch.2.1 5 tagUnion "tag9" [] [] (by decide)).2

/-- Claim C5: a Children field populated with two entries writes the first
entry's element completely before the second's; and reading those two
sibling elements in that order reconstructs the two-element sequence in
the same order, duplicates accumulating without error. -/
theorem claim5_children_order :
    (∀ (a : String) (k1 k2 : Option String × String),
      writeRecord tag3Schema (tag3Rec a [k1, k2] none none) =
        Token.start "tag3" [("att1", a)] ::
          ((writeRecord tag1Schema (tag1Rec k1.1 k1.2)
            ++ writeRecord tag1Schema (tag1Rec k2.1 k2.2)) ++ [Token.close "tag3"])) ∧
    (∀ (a : String) (k1 k2 : Option String × String) (rest : List Token),
      RecRuns tag3Schema
        (Token.start "tag3" [("att1", a)] ::
          ((writeRecord tag1Schema (tag1Rec k1.1 k1.2)
            ++ writeRecord tag1Schema (tag1Rec k2.1 k2.2)) ++ (Token.close "tag3" :: rest)))
        (.ok (tag3Rec a [k1, k2] none none, rest))) :=
  ⟨write_tag3_two, reads_tag3_two⟩

/-- Witness for C5: the two-children read at concrete contents. -/
theorem claim5_children_order_witness :
    RecRuns tag3Schema
      (Token.start "tag3" [("att1", "a")] ::
        ((writeRecord tag1Schema (tag1Rec none "c1")
          ++ writeRecord tag1Schema (tag1Rec (some "x") "c2")) ++ (Token.close "tag3" :: [])))
      (.ok (tag3Rec "a" [(none, "c1"), (some "x", "c2")] none none, [])) :=
  claim5_children_order.2 "a" (none, "c1") (some "x", "c2") []

/-- Claim C6: reading a record whose schema declares an Attribute(name)
field: when the name is absent from the start tag's attribute list, a
required field fails the read with MissingField naming the record and the
attribute, and an optional field leaves the slot absent and the read
succeeds. -/
theorem claim6_required_optional_attrs :
    (∀ (s : Schema) (pre post : List Field) (an : String) (k : ScalarKind)
        (attrs : List (String × String)) (acc0 : List FieldVal) (rest : List Token),
      s.fields = pre ++ Field.attr an k true :: post →
      initAcc s.tag pre attrs = .ok acc0 →
      lookupAttr attrs an = none →
      RecRuns s (Token.selfClose s.tag attrs :: rest) (.error (.missingField s.tag an))) ∧
    (∀ (s : Schema) (pre post : List Field) (an : String) (k : ScalarKind)
        (attrs : List (String × String)) (acc0 acc1 : List FieldVal) (rest : List Token),
      s.fields = pre ++ Field.attr an k false :: post →
      initAcc s.tag pre attrs = .ok acc0 →
      initAcc s.tag post attrs = .ok acc1 →
      lookupAttr attrs an = none →
      RecRuns s (Token.selfClose s.tag attrs :: rest)
        (.ok (RecVal.mk (acc0 ++ FieldVal.optScalar none :: acc1), rest))) := by
  constructor
  · intro s pre post an k attrs acc0 rest hfields hpre habs
    apply recRuns_selfClose_err (s := s)
    rw [hfields]
    exact initAcc_missing_required s.tag pre post an k attrs acc0 hpre habs
  · intro s pre post an k attrs acc0 acc1 rest hfields hpre hpost habs
    apply recRuns_selfClose (s := s)
    rw [hfields]
    exact initAcc_optional_absent s.tag pre post an k attrs acc0 acc1 hpre hpost habs

/-- Witness for C6: tag2 with att2 missing fails with MissingField. -/
theorem claim6_required_optional_attrs_witness :
    RecRuns tag2Schema (Token.selfClose tag2Schema.tag [("att1", "v")] :: [])
      (.error (.missingField tag2Schema.tag "att2")) :=
  claim6_required_optional_attrs.1 tag2Schema [Field.attr "att1" ScalarKind.str true] []
    "att2" ScalarKind.str [("att1", "v")] [FieldVal.reqScalar (Scalar.s "v")] [] rfl rfl rfl

/-- Claim C7: writing a leaf record with no attributes set yields a bare
self-closing tag; reading a bare self-closing tag against a schema with no
required attributes yields the all-defaults record (attribute fields
absent), regardless of what body fields the schema declares; and in
general the writer self-closes exactly when no body content exists. -/
theorem claim7_leaf_selfclosing :
    serialize (writeRecord dstrikeSchema (dstrikeRec none)) = "<w:dstrike/>" ∧
    serialize (writeRecord breakSchema (breakRec none)) = "<w:br/>" ∧
    (∀ (s : Schema) (rest : List Token),
      (∀ f ∈ s.fields, isRequiredAttr f = false) →
      RecRuns s (Token.selfClose s.tag [] :: rest)
        (.ok (RecVal.mk (defaultAcc s.fields), rest))) ∧
    (∀ (s : Schema) (v : RecVal),
      hasBodyContent s.fields v.vals = false →
      writeRecord s v = [Token.selfClose s.tag (attrsOf s.fields v.vals)]) :=
  ⟨serialize_dstrike_none, serialize_break_none,
    fun s rest h => recRuns_selfClose (s := s) (initAcc_no_attrs s.tag s.fields h) rest,
    writeRecord_selfClose_of_noBody⟩

/-- Witness for C7: reading a bare self-closing tag1 (a schema with a body
Text field) yields the defaults record. -/
theorem claim7_leaf_selfclosing_witness :
    RecRuns tag1Schema (Token.selfClose tag1Schema.tag [] :: [])
      (.ok (RecVal.mk (defaultAcc tag1Schema.fields), [])) :=
  claim7_leaf_selfclosing.2.2.1 tag1Schema [] (by decide)

/-- Claim C8: an absent optional attribute never appears in the writer's
output (the emitted attribute lists omit it entirely), a present optional
attribute always appears, booleans stringified as the literals true/false,
integers in canonical decimal, string-enum values as their literal; so an
absent optional bool and a present false serialize distinguishably. -/
theorem claim8_optional_attribute_omission :
    writeRecord dstrikeSchema (dstrikeRec none) = [Token.selfClose "w:dstrike" []] ∧
    (∀ b : Bool, writeRecord dstrikeSchema (dstrikeRec (some b)) =
      [Token.selfClose "w:dstrike" [("w:val", if b then "true" else "false")]]) ∧
    writeRecord positionSchema (positionRec none) = [Token.selfClose "w:position" []] ∧
    (∀ i : Int, writeRecord positionSchema (positionRec (some i)) =
      [Token.selfClose "w:position" [("w:val", intToString i)]]) ∧
    writeRecord breakSchema (breakRec none) = [Token.selfClose "w:br" []] ∧
    (∀ t : BreakType, writeRecord breakSchema (breakRec (some t)) =
      [Token.selfClose "w:br" [("w:type", t.lit)]]) ∧
    (∀ c : String, writeRecord tag1Schema (tag1Rec none c) =
      [Token.start "tag1" [], Token.text c, Token.close "tag1"]) ∧
    (∀ a c : String, writeRecord tag1Schema (tag1Rec (some a) c) =
      [Token.start "tag1" [("att1", a)], Token.text c, Token.close "tag1"]) ∧
    serialize (writeRecord dstrikeSchema (dstrikeRec none)) = "<w:dstrike/>" ∧
    serialize (writeRecord dstrikeSchema (dstrikeRec (some false))) =
      "<w:dstrike w:val=\"false\"/>" :=
  ⟨write_dstrike_none, write_dstrike_some, write_position_none, write_position_some,
    write_break_none, write_break_some, write_tag1_none, write_tag1_some,
    serialize_dstrike_none, serialize_dstrike_false⟩

/-- Claim C9: a second occurrence of an element bound to a non-repeating
single Child field fails the read with an UnexpectedEvent error; the
second occurrence does not silently overwrite the first. -/
theorem claim9_duplicate_single_child :
    ∀ (a x y x2 y2 : String) (rest : List Token),
      RecRuns tag3Schema
        (Token.start "tag3" [("att1", a)] ::
          (writeRecord tag2Schema (tag2Rec x y) ++
            (writeRecord tag2Schema (tag2Rec x2 y2) ++ (Token.close "tag3" :: rest))))
        (.error (.unexpectedEvent "single child" "tag2")) := by
  intro a x y x2 y2 rest
  have hdup : BodyRuns tag3Schema
      [FieldVal.reqScalar (Scalar.s a), FieldVal.childrenF [],
        FieldVal.childF (some (tag2Rec x y)), FieldVal.optScalar none]
      (writeRecord tag2Schema (tag2Rec x2 y2) ++ (Token.close "tag3" :: rest))
      (.error (.unexpectedEvent "single child" "tag2")) := by
    rw [write_tag2]
    exact bodyRuns_dup_child _ _ _ _ _ _
  have hb := t3_step_child (FieldVal.reqScalar (Scalar.s a)) (FieldVal.optScalar none) [] x y
    _ _ hdup
  exact recRuns_start_err (s := tag3Schema) rfl (init_tag3 a) hb

/-- Witness for C9: the duplicate tag2 child at concrete attributes. -/
theorem claim9_duplicate_single_child_witness :
    RecRuns tag3Schema
      (Token.start "tag3" [("att1", "a")] ::
        (writeRecord tag2Schema (tag2Rec "1" "2") ++
          (writeRecord tag2Schema (tag2Rec "3" "4") ++ (Token.close "tag3" :: []))))
      (.error (.unexpectedEvent "single child" "tag2")) :=
  claim9_duplicate_single_child "a" "1" "2" "3" "4" []

/-- Claim C10: the engine's error type has an UnknownValue variant, and
reading the string-enum attribute of the break element with a value that
matches none of the declared literals column, page, textWrapping fails
with UnknownValue carrying the expected set and the offending text, while
each declared literal is accepted. -/
theorem claim10_unknown_enum_value :
    (∀ (t : String) (rest : List Token),
      breakLits.contains t = false →
      RecRuns breakSchema (Token.selfClose "w:br" [("w:type", t)] :: rest)
        (.error (.unknownValue "column | page | textWrapping" t))) ∧
    (∀ (t : BreakType) (rest : List Token),
      RecRuns breakSchema (Token.selfClose "w:br" [("w:type", t.lit)] :: rest)
        (.ok (breakRec (some t), rest))) :=
  ⟨fun t rest h => break_unknown_runs t h rest, break_known_runs⟩

/-- Witness for C10: the unknown literal diagonal is rejected. -/
theorem claim10_unknown_enum_value_witness :
    RecRuns breakSchema (Token.selfClose "w:br" [("w:type", "diagonal")] :: [])
      (.error (.unknownValue "column | page | textWrapping" "diagonal")) :=
  claim10_unknown_enum_value.1 "diagonal" [] (by decide)

end DocxXml
